import Mathlib

/-!
Shallow embedding of the ceremony coordinator in
src/tools/summonerd/src/coordinator.rs.

The file models, faithfully to the Rust source:
  * one contribution attempt as driven by ContributionHandler::contribute /
    contribute_inner (with the tokio timeout wrapping the whole inner future,
    so the deadline is checked at every await point);
  * the ParticipantQueue (a HashMap from address to (Participant, Amount),
    modelled as an association list whose order stands for the iteration
    order of the map) with add / prune / score / remove / bid / inform;
  * the Coordinator event loop body (Coordinator::run) as a step function
    over merged events, and the composed coordinator/handler system with its
    two capacity-one channels as a small-step transition system driven by an
    arbitrary schedule.

Addresses, amounts, CRS elements, contributions, roots and slots are all
modelled as Nat; errors as String.  External collaborators (Storage, Phase,
Participant sessions) are modelled by records of call results and await
durations, following the interface contracts in the specification.
-/

abbrev Err := String

/-- Modelled from the spec: a connected participant session handle
(participant.rs is not part of the sources).  It exposes an address, a
non-blocking liveness flag, and whether a best-effort try_notify send to it
succeeds. -/
structure Participant where
  addr : Nat
  live : Bool
  notifyOk : Bool
deriving DecidableEq

/-- Modelled from the spec: the Phase capability set (phase.rs is not part of
the sources): a constant contribution time budget, the pure validation
predicate, the pure parent-linkage predicate, and the slot-counter marker. -/
structure Phase where
  contributionTimeSecs : Nat
  validate : Nat → Nat → Option Nat
  isLinkedTo : Nat → Nat → Bool
  marker : Nat

/-- Modelled from the spec: the results and durations of the collaborator
calls made during one contribution attempt (storage.rs and participant.rs are
not part of the sources).  Each awaited call has a result and a duration; the
durations feed the deadline check of the tokio timeout that wraps
contribute_inner. -/
structure AttemptEnv where
  currentCrs : Except Err (Option Nat)
  tCrs : Nat
  contributeRes : Except Err (Option Nat)
  tContribute : Nat
  fetchRoot : Except Err Nat
  tRoot : Nat
  tValidate : Nat
  commitRes : Except Err Unit
  tCommit : Nat
  currentSlot : Except Err Nat
  tSlot : Nat
  confirmRes : Except Err Unit
  tConfirm : Nat
  strikeRes : Except Err Unit
  tStrike : Nat

/-- Observable side effects of one contribution attempt: a strike recorded
against an address, a contribution committed under an address, a confirmation
sent carrying a slot counter. -/
inductive Effect where
  | strike (who : Nat)
  | commit (who : Nat) (contribution : Nat)
  | confirmEff (slot : Nat)
deriving DecidableEq

instance : DecidableEq (Except Err Unit) := fun a b =>
  match a, b with
  | .error x, .error y =>
    if h : x = y then isTrue (by rw [h])
    else isFalse (by intro hh; cases hh; exact h rfl)
  | .ok x, .ok y => isTrue (by cases x; cases y; rfl)
  | .error _, .ok _ => isFalse (by intro h; cases h)
  | .ok _, .error _ => isFalse (by intro h; cases h)

/-- Outcome of the future contribute_inner under the surrounding timeout:
either it completed within the deadline with a Result, or the deadline
expired first and the future was dropped. -/
inductive InnerCut where
  | done (res : Except Err Unit)
  | timedOut
deriving DecidableEq

/-- The strike taken inside contribute_inner (coordinator.rs lines 108-110):
one awaited storage.strike call, still under the surrounding timeout; `t` is
the elapsed time when it starts. -/
def innerStrike (ph : Phase) (env : AttemptEnv) (contributor t : Nat) :
    List Effect × InnerCut :=
  if ph.contributionTimeSecs < t + env.tStrike then ([], .timedOut)
  else match env.strikeRes with
    | .error e => ([], .done (.error e))
    | .ok _ => ([Effect.strike contributor], .done (.ok ()))

/-- ContributionHandler::contribute_inner (coordinator.rs lines 79-111), cut
at the deadline of the tokio timeout that wraps it in contribute: before each
await completes, if its completion time exceeds the phase time budget the
future is dropped (`timedOut`) and only the effects of already-completed
awaits persist.  The `.ok none` case of current_crs is the source's expect
panic. -/
def contributeInnerCut (ph : Phase) (env : AttemptEnv) (contributor : Nat) :
    List Effect × InnerCut :=
  if ph.contributionTimeSecs < env.tCrs then ([], .timedOut)
  else match env.currentCrs with
    | .error e => ([], .done (.error e))
    | .ok none => ([], .done (.error "the phase should have been set up by now"))
    | .ok (some parent) =>
      if ph.contributionTimeSecs < env.tCrs + env.tContribute then ([], .timedOut)
      else match env.contributeRes with
        | .error e => ([], .done (.error e))
        | .ok none => innerStrike ph env contributor (env.tCrs + env.tContribute)
        | .ok (some raw) =>
          if ph.contributionTimeSecs < env.tCrs + env.tContribute + env.tRoot then
            ([], .timedOut)
          else match env.fetchRoot with
            | .error e => ([], .done (.error e))
            | .ok root =>
              if ph.contributionTimeSecs <
                  env.tCrs + env.tContribute + env.tRoot + env.tValidate then
                ([], .timedOut)
              else match (ph.validate root raw).bind
                  (fun c => if ph.isLinkedTo c parent then some c else none) with
                | none =>
                  innerStrike ph env contributor
                    (env.tCrs + env.tContribute + env.tRoot + env.tValidate)
                | some contribution =>
                  if ph.contributionTimeSecs <
                      env.tCrs + env.tContribute + env.tRoot + env.tValidate +
                      env.tCommit then
                    ([], .timedOut)
                  else match env.commitRes with
                    | .error e => ([], .done (.error e))
                    | .ok _ =>
                      if ph.contributionTimeSecs <
                          env.tCrs + env.tContribute + env.tRoot + env.tValidate +
                          env.tCommit + env.tSlot then
                        ([Effect.commit contributor contribution], .timedOut)
                      else match env.currentSlot with
                        | .error e =>
                          ([Effect.commit contributor contribution], .done (.error e))
                        | .ok slot =>
                          if ph.contributionTimeSecs <
                              env.tCrs + env.tContribute + env.tRoot + env.tValidate +
                              env.tCommit + env.tSlot + env.tConfirm then
                            ([Effect.commit contributor contribution], .timedOut)
                          else match env.confirmRes with
                            | .error e =>
                              ([Effect.commit contributor contribution],
                                .done (.error e))
                            | .ok _ =>
                              ([Effect.commit contributor contribution,
                                Effect.confirmEff slot], .done (.ok ()))

/-- ContributionHandler::contribute (coordinator.rs lines 57-76):
run contribute_inner under the phase time budget; on Ok(Ok) return Ok, on
expiry record a timeout strike (propagating a strike-call failure), on
Ok(Err) propagate the inner error. -/
def contribute (ph : Phase) (env : AttemptEnv) (contributor : Nat) :
    List Effect × Except Err Unit :=
  match contributeInnerCut ph env contributor with
  | (effs, .done r) => (effs, r)
  | (effs, .timedOut) =>
    match env.strikeRes with
    | .error e => (effs, .error e)
    | .ok _ => (effs ++ [Effect.strike contributor], .ok ())

/-- The error payloads an attempt can surface: each one is the error result
of one of the collaborator calls of the environment, or the panic message of
the missing-phase expect. -/
def errFrom (env : AttemptEnv) (e : Err) : Prop :=
  env.currentCrs = .error e ∨
  (env.currentCrs = .ok none ∧ e = "the phase should have been set up by now") ∨
  env.contributeRes = .error e ∨ env.fetchRoot = .error e ∨
  env.commitRes = .error e ∨ env.currentSlot = .error e ∨
  env.confirmRes = .error e ∨ env.strikeRes = .error e

def strikeCount (effs : List Effect) : Nat :=
  effs.countP fun eff => match eff with | .strike _ => true | _ => false

def commitCount (effs : List Effect) : Nat :=
  effs.countP fun eff => match eff with | .commit _ _ => true | _ => false

def confirmCount (effs : List Effect) : Nat :=
  effs.countP fun eff => match eff with | .confirmEff _ => true | _ => false

/-- One entry of the ParticipantQueue map: address key, participant handle,
bid amount. -/
structure QEntry where
  addr : Nat
  part : Participant
  bid : Nat
deriving DecidableEq

/-- ParticipantQueue.participants: HashMap from Address to
(Participant, Amount), modelled as an association list; the list order
stands for the iteration order of the map (fixed while the map is not
mutated).  The map invariant is that keys are distinct. -/
abbrev ParticipantQueue := List QEntry

/-- A try_notify call made during inform, with its arguments
(address notified, zero-based rank, total ranked count, bid of the head
contributor, own bid). -/
structure Notification where
  addr : Nat
  rank : Nat
  total : Nat
  leaderBid : Nat
  ownBid : Nat
deriving DecidableEq

def qkeys (q : ParticipantQueue) : List Nat := q.map QEntry.addr

/-- HashMap::get: first entry with the key. -/
def qget (q : ParticipantQueue) (a : Nat) : Option (Participant × Nat) :=
  match q with
  | [] => none
  | e :: rest => if e.addr = a then some (e.part, e.bid) else qget rest a

/-- ParticipantQueue::bid (coordinator.rs lines 129-131). -/
def qbid (q : ParticipantQueue) (a : Nat) : Option Nat :=
  (qget q a).map Prod.snd

/-- Bid of an address, defaulting to 0 when absent; used to phrase the sort
key of score (the source indexes the map, which cannot miss there). -/
def qbidD (q : ParticipantQueue) (a : Nat) : Nat := (qbid q a).getD 0

/-- ParticipantQueue::add (coordinator.rs lines 133-137): insert keyed by the
participant's address; an existing key keeps its slot in iteration order, a
new key is appended. -/
def qadd (q : ParticipantQueue) (p : Participant) (bid : Nat) : ParticipantQueue :=
  match q with
  | [] => [⟨p.addr, p, bid⟩]
  | e :: rest => if e.addr = p.addr then ⟨p.addr, p, bid⟩ :: rest
      else e :: qadd rest p bid

/-- ParticipantQueue::prune (coordinator.rs lines 139-142): retain live
connections. -/
def qprune (q : ParticipantQueue) : ParticipantQueue :=
  q.filter fun e => e.part.live

/-- HashMap::remove of one key (first occurrence in the model). -/
def qremoveKey (q : ParticipantQueue) (a : Nat) : ParticipantQueue :=
  match q with
  | [] => []
  | e :: rest => if e.addr = a then rest else e :: qremoveKey rest a

/-- ParticipantQueue::score (coordinator.rs lines 144-148): all current
addresses, stably sorted by descending bid.  The tie order among equal bids
is the map iteration order, which the source leaves implementation-defined;
the model uses the list order. -/
def score (q : ParticipantQueue) : List Nat :=
  List.insertionSort (fun a b => qbidD q b ≤ qbidD q a) (qkeys q)

/-- ParticipantQueue::inform (coordinator.rs lines 157-179), one iteration of
its for loop per list element, carrying the zero-based index `i` and the
precomputed `total = ranked.len()`: skip addresses other than the filter;
look the address up (`none` models the expect panic); call try_notify and,
when the send fails, remove the entry from the queue. -/
def informGo (q : ParticipantQueue) (ranked : List Nat) (i total cb : Nat)
    (filter : Option Nat) : Option (ParticipantQueue × List Notification) :=
  match ranked with
  | [] => some (q, [])
  | a :: rest =>
    let skip := match filter with | some f => decide (f ≠ a) | none => false
    if skip then informGo q rest (i + 1) total cb filter
    else match qget q a with
      | none => none
      | some (p, bid) =>
        let q1 := if p.notifyOk then q else qremoveKey q a
        match informGo q1 rest (i + 1) total cb filter with
        | none => none
        | some (q2, ns) => some (q2, ⟨a, i, total, cb, bid⟩ :: ns)

/-- ParticipantQueue::inform on the full ranked list. -/
def inform (q : ParticipantQueue) (ranked : List Nat) (cb : Nat)
    (filter : Option Nat) : Option (ParticipantQueue × List Notification) :=
  informGo q ranked 0 ranked.length cb filter

/-- The notifications a completion-event inform sends: one per ranked
address, in rank order, carrying the zero-based rank, the total ranked
count, the head contributor bid and the own bid as read from the queue. -/
def rankedNotes (q : ParticipantQueue) (cb total : Nat) :
    Nat → List Nat → List Notification
  | _, [] => []
  | i, a :: rest => ⟨a, i, total, cb, qbidD q a⟩ :: rankedNotes q cb total (i + 1) rest

/-- The events merged into the coordinator stream (Coordinator::run,
coordinator.rs lines 202-220): a new participant arrival with its bid, a
completion signal from the handler, and the handler task finishing (its
carried error, none standing for Ok). -/
inductive CEvent where
  | newParticipant (p : Participant) (bid : Nat)
  | contributionDone
  | handlerFinished (err : Option Err)

/-- Coordinator loop state: the participant queue and the want_contribution
flag. -/
structure CoordState where
  queue : ParticipantQueue
  want : Bool

/-- Result of one coordinator iteration: continue with a new state, possibly
having dispatched one (address, participant) pair to the handler and having
made the recorded try_notify calls; or return an error; or panic on a failed
expect. -/
inductive CoordResult where
  | cont (s : CoordState) (disp : Option (Nat × Participant)) (ns : List Notification)
  | exit (e : Err)
  | panic

/-- Steps 2-6 of the body of Coordinator::run (coordinator.rs lines 248-282),
after the event was applied to the queue: prune, score, skip when the ranking
is empty, look up the head bid (expect), inform with the filter, and when
want_contribution holds remove the head (expect) and dispatch it. -/
def coordIterate (q1 : ParticipantQueue) (want1 : Bool) (maybeNew : Option Nat) :
    CoordResult :=
  let q2 := qprune q1
  match score q2 with
  | [] => .cont ⟨q2, want1⟩ none []
  | contributor :: rest =>
    match qbid q2 contributor with
    | none => .panic
    | some cb =>
      match inform q2 (contributor :: rest) cb maybeNew with
      | none => .panic
      | some (q3, ns) =>
        if want1 then
          match qget q3 contributor with
          | none => .panic
          | some (p, _) =>
            .cont ⟨qremoveKey q3 contributor, false⟩ (some (contributor, p)) ns
        else .cont ⟨q3, want1⟩ none ns

/-- One full iteration of Coordinator::run (coordinator.rs lines 224-283):
apply the awaited event (arrival adds to the queue and is remembered as the
only address to notify; completion sets want_contribution; handler
termination returns its error or the synthesized message), then run the rest
of the loop body. -/
def coordStep (cs : CoordState) (ev : CEvent) : CoordResult :=
  match ev with
  | .newParticipant p b => coordIterate (qadd cs.queue p b) cs.want (some p.addr)
  | .contributionDone => coordIterate cs.queue true none
  | .handlerFinished w =>
    .exit (w.getD "contribution handler finished with no reason")

/-- Contribution handler task state: waiting on the start channel, busy with
one attempt, finished (fatal error carried, none for a clean return), or
finished and already observed by the coordinator. -/
inductive HState where
  | idle
  | busy (who : Nat)
  | finished (e : Option Err)
  | observed

/-- The composed system: the coordinator (none once it returned or panicked),
the pending external arrivals in FIFO order, the capacity-one start and done
channels, and the handler task. -/
structure Sys where
  coord : Option CoordState
  arrivals : List (Participant × Nat)
  startChan : Option (Nat × Participant)
  doneChan : Bool
  handler : HState

/-- Observable labels of system transitions. -/
inductive SysLabel where
  | dispatch (who : Nat)
  | doneReceived
  | handlerStart (who : Nat)
  | doneSent
  | coordExit (e : Err)
  | coordPanic
  | handlerDied (e : Err)
deriving DecidableEq

/-- Scheduler choices resolving the nondeterministic interleaving: deliver
the next arrival, the done signal, or the handler-finished event to the
coordinator; or let the handler take a start message, finish its attempt
cleanly (sending done), or finish it fatally. -/
inductive SysChoice where
  | deliverArrival
  | deliverDone
  | deliverFinish
  | handlerRecv
  | handlerOk
  | handlerErr (e : Err)

/-- Apply a coordinator iteration outcome to the system: a dispatch puts the
pair on the start channel (the invariant proved below shows the channel is
always free at that moment, matching the blocking send), an exit or panic
removes the coordinator. -/
def applyCoord (s : Sys) (r : CoordResult) (pre : List SysLabel) :
    Sys × List SysLabel :=
  match r with
  | .cont cs1 none _ => ({ s with coord := some cs1 }, pre)
  | .cont cs1 (some (w, p)) _ =>
    ({ s with coord := some cs1, startChan := some (w, p) },
      pre ++ [SysLabel.dispatch w])
  | .exit e => ({ s with coord := none }, pre ++ [SysLabel.coordExit e])
  | .panic => ({ s with coord := none }, pre ++ [SysLabel.coordPanic])

/-- One small step of the composed system under a scheduler choice; choices
whose enabling condition fails do nothing.  Channel sends respect the
capacity-one bound: the handler can send done only into a free channel. -/
def sysStep (s : Sys) (c : SysChoice) : Sys × List SysLabel :=
  match c with
  | .deliverArrival =>
    match s.coord, s.arrivals with
    | some cs, (p, b) :: rest =>
      applyCoord { s with arrivals := rest } (coordStep cs (.newParticipant p b)) []
    | _, _ => (s, [])
  | .deliverDone =>
    match s.coord, s.doneChan with
    | some cs, true =>
      applyCoord { s with doneChan := false } (coordStep cs .contributionDone)
        [SysLabel.doneReceived]
    | _, _ => (s, [])
  | .deliverFinish =>
    match s.coord, s.handler with
    | some cs, .finished e =>
      applyCoord { s with handler := .observed } (coordStep cs (.handlerFinished e)) []
    | _, _ => (s, [])
  | .handlerRecv =>
    match s.handler, s.startChan with
    | .idle, some (w, _) =>
      ({ s with handler := .busy w, startChan := none }, [SysLabel.handlerStart w])
    | _, _ => (s, [])
  | .handlerOk =>
    match s.handler, s.doneChan with
    | .busy _, false => ({ s with handler := .idle, doneChan := true }, [SysLabel.doneSent])
    | _, _ => (s, [])
  | .handlerErr e =>
    match s.handler with
    | .busy _ => ({ s with handler := .finished (some e) }, [SysLabel.handlerDied e])
    | _ => (s, [])

/-- Run the system under a schedule, collecting the emitted labels. -/
def runSys (s : Sys) : List SysChoice → Sys × List SysLabel
  | [] => (s, [])
  | c :: cs =>
    let (s1, ls) := sysStep s c
    let (s2, ls2) := runSys s1 cs
    (s2, ls ++ ls2)

/-- The initial system: coordinator alive with an empty queue and
want_contribution set (coordinator.rs line 223), both channels empty, the
handler waiting, the given arrivals pending. -/
def initSys (arrivals : List (Participant × Nat)) : Sys :=
  ⟨some ⟨[], true⟩, arrivals, none, false, .idle⟩

def labD : SysLabel → Nat | .dispatch _ => 1 | _ => 0

def labR : SysLabel → Nat | .doneReceived => 1 | _ => 0

def labHS : SysLabel → Nat | .handlerStart _ => 1 | _ => 0

def labDS : SysLabel → Nat | .doneSent => 1 | _ => 0

/-- Number of dispatches to the handler in a trace. -/
def nD (ls : List SysLabel) : Nat := (ls.map labD).sum

/-- Number of completion signals received by the coordinator in a trace. -/
def nR (ls : List SysLabel) : Nat := (ls.map labR).sum

/-- Number of attempts started by the handler in a trace. -/
def nHS (ls : List SysLabel) : Nat := (ls.map labHS).sum

/-- Number of completion signals sent by the handler in a trace. -/
def nDS (ls : List SysLabel) : Nat := (ls.map labDS).sum

def startOcc (s : Sys) : Nat := if s.startChan.isSome then 1 else 0

def doneOcc (s : Sys) : Nat := if s.doneChan then 1 else 0

def busyBit : HState → Nat | .busy _ => 1 | _ => 0

def finBit : HState → Nat | .finished _ => 1 | .observed => 1 | _ => 0

/-- The structural invariant tying trace counts to system state: every
dispatch is either buffered in the start channel or was taken by the handler;
every done signal sent is either buffered or was received; every attempt
taken is either still running, ended fatally, or signalled done; and while
the coordinator lives, want_contribution accounts exactly for the one
possibly outstanding attempt. -/
def SysInv (s : Sys) (d r hs ds : Nat) : Prop :=
  d = hs + startOcc s ∧
  ds = r + doneOcc s ∧
  hs = ds + busyBit s.handler + finBit s.handler ∧
  (match s.coord with
   | some cs => d = r + (if cs.want then 0 else 1)
   | none => d ≤ r + 1)

/-- At most one attempt outstanding on the coordinator side and on the
handler side. -/
def okCounts (d r hs ds : Nat) : Prop := d ≤ r + 1 ∧ hs ≤ ds + 1

/-- Every prefix of the trace keeps at most one attempt outstanding, counting
from the given starting counts. -/
def traceOK : Nat → Nat → Nat → Nat → List SysLabel → Prop
  | _, _, _, _, [] => True
  | d, r, hs, ds, l :: ls =>
    okCounts (d + labD l) (r + labR l) (hs + labHS l) (ds + labDS l) ∧
    traceOK (d + labD l) (r + labR l) (hs + labHS l) (ds + labDS l) ls

/-- A concrete phase used by witnesses: budget 10, a candidate validates iff
it equals the root, a contribution links iff it equals the parent. -/
def phW : Phase :=
  ⟨10, fun root raw => if raw = root then some raw else none,
    fun c parent => decide (c = parent), 0⟩

/-- Witness environment: every collaborator call succeeds quickly and the
candidate validates and links. -/
def envSuccess : AttemptEnv :=
  ⟨.ok (some 5), 1, .ok (some 5), 1, .ok 5, 1, 1, .ok (), 1, .ok 9, 1, .ok (), 1,
    .ok (), 1⟩

/-- Witness environment: the participant declines (no candidate), the strike
call succeeds. -/
def envDecline : AttemptEnv :=
  ⟨.ok (some 5), 1, .ok none, 1, .ok 5, 1, 1, .ok (), 1, .ok 9, 1, .ok (), 1,
    .ok (), 1⟩

/-- Witness environment: the storage commit fails. -/
def envCommitFail : AttemptEnv :=
  ⟨.ok (some 5), 1, .ok (some 5), 1, .ok 5, 1, 1, .error "storage commit failed", 1,
    .ok 9, 1, .ok (), 1, .ok (), 1⟩

/-- A concrete queue used by witnesses: two live entries, bids 5 and 3, both
notifiable. -/
def qW : ParticipantQueue := [⟨1, ⟨1, true, true⟩, 5⟩, ⟨2, ⟨2, true, true⟩, 3⟩]

/-- A concrete queue whose second entry fails its notification send. -/
def qWfail : ParticipantQueue := [⟨1, ⟨1, true, true⟩, 5⟩, ⟨2, ⟨2, true, false⟩, 3⟩]

/-- Counterexample environment: the participant session itself fails its
contribution call (contribute returns an error), while every storage and
phase collaborator call succeeds. -/
def envC2x : AttemptEnv :=
  ⟨.ok (some 5), 1, .error "participant protocol failure", 1, .ok 5, 1, 1,
    .ok (), 1, .ok 9, 1, .ok (), 1, .ok (), 1⟩

/-- Counterexample environment: the candidate arrives quickly (t = 2 of a
10 second budget) and validates and links, but validation takes 100, so the
deadline expires while the validation result is awaited. -/
def envC3x : AttemptEnv :=
  ⟨.ok (some 5), 1, .ok (some 5), 1, .ok 5, 1, 100, .ok (), 1, .ok 9, 1,
    .ok (), 1, .ok (), 1⟩

/-- Counterexample environment: everything succeeds quickly up to and
including the commit, but the confirmation send hangs for 100, so the
deadline expires after the commit took effect. -/
def envC4x : AttemptEnv :=
  ⟨.ok (some 5), 1, .ok (some 5), 1, .ok 5, 1, 1, .ok (), 1, .ok 9, 1,
    .ok (), 100, .ok (), 1⟩

/-- Counterexample environment: a validating and linking candidate whose
validation of 50 outlives the budget, so no commit happens at all. -/
def envC5x : AttemptEnv :=
  ⟨.ok (some 7), 2, .ok (some 7), 2, .ok 7, 2, 50, .ok (), 1, .ok 9, 1,
    .ok (), 1, .ok (), 1⟩

/-- Classification of a cut contribute_inner result: the effects are empty,
a lone strike, a lone commit, or a commit followed by a confirmation,
correlated with the outcome; every carried error payload stems from a
collaborator call of the environment. -/
def shapeOK (c : Nat) (env : AttemptEnv) : List Effect × InnerCut → Prop
  | (effs, .done (.ok _)) =>
    effs = [Effect.strike c] ∨
      ∃ x s, effs = [Effect.commit c x, Effect.confirmEff s]
  | (effs, .timedOut) => effs = [] ∨ ∃ x, effs = [Effect.commit c x]
  | (effs, .done (.error e)) =>
    errFrom env e ∧ (effs = [] ∨ ∃ x, effs = [Effect.commit c x])

theorem qkeys_cons (e : QEntry) (rest : List QEntry) :
    qkeys (e :: rest) = e.addr :: qkeys rest := rfl

theorem qget_isSome_iff (q : ParticipantQueue) (a : Nat) :
    (qget q a).isSome = true ↔ a ∈ qkeys q := by
  induction q with
  | nil => simp [qget, qkeys]
  | cons e rest ih =>
    simp only [qget, qkeys_cons, List.mem_cons]
    by_cases h : e.addr = a
    · simp [h]
    · simp only [if_neg h, ih]
      constructor
      · exact fun hm => Or.inr hm
      · rintro (rfl | hm)
        · exact absurd rfl h
        · exact hm

theorem qget_removeKey_ne (q : ParticipantQueue) (a b : Nat) (h : b ≠ a) :
    qget (qremoveKey q b) a = qget q a := by
  induction q with
  | nil => simp [qremoveKey]
  | cons e rest ih =>
    by_cases he : e.addr = b
    · simp [qremoveKey, he, qget, h]
    · simp only [qremoveKey, if_neg he, qget]
      by_cases ha : e.addr = a <;> simp [ha, ih]

theorem qkeys_removeKey_subset (q : ParticipantQueue) (a x : Nat)
    (h : x ∈ qkeys (qremoveKey q a)) : x ∈ qkeys q := by
  induction q with
  | nil => simpa [qremoveKey] using h
  | cons e rest ih =>
    by_cases he : e.addr = a
    · simp only [qremoveKey, if_pos he] at h
      simp [qkeys]
      right
      simpa [qkeys] using h
    · simp only [qremoveKey, if_neg he, qkeys, List.map_cons, List.mem_cons] at h ⊢
      rcases h with h | h
      · exact Or.inl h
      · exact Or.inr (ih h)

theorem not_mem_removeKey_self (q : ParticipantQueue) (a : Nat)
    (h : (qkeys q).Nodup) : a ∉ qkeys (qremoveKey q a) := by
  induction q with
  | nil => simp [qremoveKey, qkeys]
  | cons e rest ih =>
    simp only [qkeys, List.map_cons, List.nodup_cons] at h
    by_cases he : e.addr = a
    · simp only [qremoveKey, if_pos he]
      intro hmem
      exact h.1 (he ▸ hmem)
    · simp only [qremoveKey, if_neg he, qkeys, List.map_cons, List.mem_cons]
      rintro (h1 | h1)
      · exact he h1.symm
      · exact ih h.2 h1

theorem nodup_removeKey (q : ParticipantQueue) (a : Nat)
    (h : (qkeys q).Nodup) : (qkeys (qremoveKey q a)).Nodup := by
  induction q with
  | nil => simp [qremoveKey, qkeys]
  | cons e rest ih =>
    simp only [qkeys, List.map_cons, List.nodup_cons] at h
    by_cases he : e.addr = a
    · simpa [qremoveKey, he, qkeys] using h.2
    · simp only [qremoveKey, if_neg he, qkeys, List.map_cons, List.nodup_cons]
      exact ⟨fun hm => h.1 (qkeys_removeKey_subset rest a e.addr hm), ih h.2⟩

theorem score_perm (q : ParticipantQueue) : (score q).Perm (qkeys q) :=
  List.perm_insertionSort _ _

theorem score_sorted (q : ParticipantQueue) :
    (score q).Sorted (fun a b => qbidD q b ≤ qbidD q a) := by
  haveI : IsTotal Nat (fun a b => qbidD q b ≤ qbidD q a) :=
    ⟨fun a b => Nat.le_total _ _⟩
  haveI : IsTrans Nat (fun a b => qbidD q b ≤ qbidD q a) :=
    ⟨fun a b c h1 h2 => le_trans h2 h1⟩
  exact List.sorted_insertionSort _ _

theorem score_mem (q : ParticipantQueue) (a : Nat) (h : a ∈ score q) :
    a ∈ qkeys q := (score_perm q).mem_iff.mp h

theorem score_nodup (q : ParticipantQueue) (h : (qkeys q).Nodup) :
    (score q).Nodup := ((score_perm q).nodup_iff).mpr h

theorem mem_removeKey_of_ne (q : ParticipantQueue) (a b : Nat) (h : b ≠ a)
    (hb : b ∈ qkeys q) : b ∈ qkeys (qremoveKey q a) := by
  rw [← qget_isSome_iff] at hb ⊢
  rwa [qget_removeKey_ne q b a (Ne.symm h)]

theorem rankedNotes_congr (q1 q : ParticipantQueue) (cb total : Nat) :
    ∀ (l : List Nat) (i : Nat), (∀ b ∈ l, qbidD q1 b = qbidD q b) →
      rankedNotes q1 cb total i l = rankedNotes q cb total i l := by
  intro l
  induction l with
  | nil => intro i _; rfl
  | cons a rest ih =>
    intro i h
    simp only [rankedNotes]
    rw [h a (List.mem_cons_self a rest),
      ih _ (fun b hb => h b (List.mem_cons_of_mem _ hb))]


theorem informGo_cons_none (q : ParticipantQueue) (a : Nat) (rest : List Nat)
    (i total cb : Nat) :
    informGo q (a :: rest) i total cb none =
      match qget q a with
      | none => none
      | some (p, bid) =>
        match informGo (if p.notifyOk then q else qremoveKey q a) rest (i + 1)
            total cb none with
        | none => none
        | some (q2, ns) => some (q2, ⟨a, i, total, cb, bid⟩ :: ns) := rfl

theorem informGo_cons_self (q : ParticipantQueue) (a : Nat) (rest : List Nat)
    (i total cb : Nat) :
    informGo q (a :: rest) i total cb (some a) =
      match qget q a with
      | none => none
      | some (p, bid) =>
        match informGo (if p.notifyOk then q else qremoveKey q a) rest (i + 1)
            total cb (some a) with
        | none => none
        | some (q2, ns) => some (q2, ⟨a, i, total, cb, bid⟩ :: ns) := by
  simp [informGo]

theorem informGo_cons_skip (q : ParticipantQueue) (a f : Nat) (rest : List Nat)
    (i total cb : Nat) (h : f ≠ a) :
    informGo q (a :: rest) i total cb (some f) =
      informGo q rest (i + 1) total cb (some f) := by
  simp [informGo, h]

theorem informGo_cons_found (q : ParticipantQueue) (a : Nat) (rest : List Nat)
    (i total cb : Nat) (filter : Option Nat) (p : Participant) (bid : Nat)
    (hget : qget q a = some (p, bid)) (hpass : filter = none ∨ filter = some a) :
    informGo q (a :: rest) i total cb filter =
      match informGo (if p.notifyOk then q else qremoveKey q a) rest (i + 1)
          total cb filter with
      | none => none
      | some (q2, ns) => some (q2, ⟨a, i, total, cb, bid⟩ :: ns) := by
  rcases hpass with rfl | rfl
  · rw [informGo_cons_none, hget]
  · rw [informGo_cons_self, hget]

theorem informGo_some (total cb : Nat) (filter : Option Nat) :
    ∀ (ranked : List Nat) (q : ParticipantQueue) (i : Nat),
      ranked.Nodup → (∀ b ∈ ranked, b ∈ qkeys q) →
      ∃ q2 ns, informGo q ranked i total cb filter = some (q2, ns) ∧
        ∀ x, x ∈ qkeys q2 → x ∈ qkeys q := by
  intro ranked
  induction ranked with
  | nil => exact fun q i _ _ => ⟨q, [], rfl, fun x h => h⟩
  | cons a rest ih =>
    intro q i hnd hmem
    have hrest : ∀ b ∈ rest, b ∈ qkeys q :=
      fun b hb => hmem b (List.mem_cons_of_mem _ hb)
    have hndr : rest.Nodup := (List.nodup_cons.mp hnd).2
    have hne : ∀ b ∈ rest, b ≠ a := by
      intro b hb
      rintro rfl
      exact (List.nodup_cons.mp hnd).1 hb
    have hlook : ∀ (heq : informGo q (a :: rest) i total cb filter =
        match qget q a with
        | none => none
        | some (p, bid) =>
          match informGo (if p.notifyOk then q else qremoveKey q a) rest (i + 1)
              total cb filter with
          | none => none
          | some (q2, ns) => some (q2, ⟨a, i, total, cb, bid⟩ :: ns)),
        ∃ q2 ns, informGo q (a :: rest) i total cb filter = some (q2, ns) ∧
          ∀ x, x ∈ qkeys q2 → x ∈ qkeys q := by
      intro heq
      have ha : a ∈ qkeys q := hmem a (List.mem_cons_self a rest)
      obtain ⟨⟨p, bid⟩, hpb⟩ :=
        Option.isSome_iff_exists.mp ((qget_isSome_iff q a).mpr ha)
      by_cases hno : p.notifyOk
      · obtain ⟨q2, ns, hrun, hsub⟩ := ih q (i + 1) hndr hrest
        exact ⟨q2, ⟨a, i, total, cb, bid⟩ :: ns,
          by rw [heq, hpb]; simp [hno, hrun], hsub⟩
      · obtain ⟨q2, ns, hrun, hsub⟩ := ih (qremoveKey q a) (i + 1) hndr
          (fun b hb => mem_removeKey_of_ne q a b (hne b hb) (hrest b hb))
        exact ⟨q2, ⟨a, i, total, cb, bid⟩ :: ns,
          by rw [heq, hpb]; simp [hno, hrun],
          fun x hx => qkeys_removeKey_subset q a x (hsub x hx)⟩
    rcases filter with _ | f
    · exact hlook (informGo_cons_none q a rest i total cb)
    · by_cases hf : f = a
      · subst hf
        exact hlook (informGo_cons_self q f rest i total cb)
      · obtain ⟨q2, ns, hrun, hsub⟩ := ih q (i + 1) hndr hrest
        exact ⟨q2, ns, by rw [informGo_cons_skip q a f rest i total cb hf, hrun],
          hsub⟩

theorem informGo_filter (total cb f : Nat) :
    ∀ (ranked : List Nat) (q : ParticipantQueue) (i : Nat)
      (q2 : ParticipantQueue) (ns : List Notification),
      informGo q ranked i total cb (some f) = some (q2, ns) →
      ∀ n ∈ ns, n.addr = f := by
  intro ranked
  induction ranked with
  | nil =>
    intro q i q2 ns h n hn
    simp only [informGo, Option.some.injEq, Prod.mk.injEq] at h
    rcases h with ⟨_, rfl⟩
    simp at hn
  | cons a rest ih =>
    intro q i q2 ns h n hn
    by_cases hf : f = a
    · subst hf
      rw [informGo_cons_self q f rest i total cb] at h
      rcases hq : qget q f with _ | ⟨p, bid⟩
      · simp [hq] at h
      · simp only [hq] at h
        rcases hrun : informGo (if p.notifyOk then q else qremoveKey q f) rest
            (i + 1) total cb (some f) with _ | ⟨q3, ns3⟩
        · simp [hrun] at h
        · simp only [hrun, Option.some.injEq, Prod.mk.injEq] at h
          rcases h with ⟨rfl, rfl⟩
          rcases List.mem_cons.mp hn with rfl | hn3
          · rfl
          · exact ih _ _ _ _ hrun n hn3
    · rw [informGo_cons_skip q a f rest i total cb hf] at h
      exact ih _ _ _ _ h n hn

theorem informGo_notes (total cb : Nat) :
    ∀ (ranked : List Nat) (q : ParticipantQueue) (i : Nat),
      ranked.Nodup → (∀ b ∈ ranked, b ∈ qkeys q) →
      ∃ q2, informGo q ranked i total cb none =
        some (q2, rankedNotes q cb total i ranked) := by
  intro ranked
  induction ranked with
  | nil => exact fun q i _ _ => ⟨q, rfl⟩
  | cons a rest ih =>
    intro q i hnd hmem
    have hrest : ∀ b ∈ rest, b ∈ qkeys q :=
      fun b hb => hmem b (List.mem_cons_of_mem _ hb)
    have hndr : rest.Nodup := (List.nodup_cons.mp hnd).2
    have hne : ∀ b ∈ rest, b ≠ a := by
      intro b hb
      rintro rfl
      exact (List.nodup_cons.mp hnd).1 hb
    have ha : a ∈ qkeys q := hmem a (List.mem_cons_self a rest)
    obtain ⟨⟨p, bid⟩, hpb⟩ :=
      Option.isSome_iff_exists.mp ((qget_isSome_iff q a).mpr ha)
    have hbid : qbidD q a = bid := by simp [qbidD, qbid, hpb]
    by_cases hno : p.notifyOk
    · obtain ⟨q2, hrun⟩ := ih q (i + 1) hndr hrest
      refine ⟨q2, ?_⟩
      rw [informGo_cons_none q a rest i total cb, hpb]
      simp [hno, hrun, rankedNotes, hbid]
    · obtain ⟨q2, hrun⟩ := ih (qremoveKey q a) (i + 1) hndr
        (fun b hb => mem_removeKey_of_ne q a b (hne b hb) (hrest b hb))
      have hcongr : rankedNotes (qremoveKey q a) cb total (i + 1) rest =
          rankedNotes q cb total (i + 1) rest := by
        apply rankedNotes_congr
        intro b hb
        simp [qbidD, qbid, qget_removeKey_ne q b a (Ne.symm (hne b hb))]
      refine ⟨q2, ?_⟩
      rw [informGo_cons_none q a rest i total cb, hpb]
      simp [hno, hrun, rankedNotes, hbid, hcongr]

theorem informGo_removes (total cb : Nat) (filter : Option Nat) (t : Nat) :
    ∀ (ranked : List Nat) (q : ParticipantQueue) (i : Nat),
      (qkeys q).Nodup → ranked.Nodup → (∀ b ∈ ranked, b ∈ qkeys q) →
      t ∈ ranked →
      (∀ p bid, qget q t = some (p, bid) → p.notifyOk = false) →
      (filter = none ∨ filter = some t) →
      ∃ q2 ns, informGo q ranked i total cb filter = some (q2, ns) ∧
        t ∉ qkeys q2 := by
  intro ranked
  induction ranked with
  | nil =>
    intro q i _ _ _ ht
    simp at ht
  | cons a rest ih =>
    intro q i hq hnd hmem ht hfail hpass
    have hrest : ∀ b ∈ rest, b ∈ qkeys q :=
      fun b hb => hmem b (List.mem_cons_of_mem _ hb)
    have hndr : rest.Nodup := (List.nodup_cons.mp hnd).2
    have hne : ∀ b ∈ rest, b ≠ a := by
      intro b hb
      rintro rfl
      exact (List.nodup_cons.mp hnd).1 hb
    by_cases hta : t = a
    · subst hta
      obtain ⟨⟨p, bid⟩, hpb⟩ := Option.isSome_iff_exists.mp
        ((qget_isSome_iff q t).mpr (hmem t (List.mem_cons_self t rest)))
      have hno : p.notifyOk = false := hfail p bid hpb
      obtain ⟨q2, ns, hrun, hsub⟩ := informGo_some total cb filter rest
        (qremoveKey q t) (i + 1) hndr
        (fun b hb => mem_removeKey_of_ne q t b (hne b hb) (hrest b hb))
      refine ⟨q2, ⟨t, i, total, cb, bid⟩ :: ns, ?_, ?_⟩
      · rw [informGo_cons_found q t rest i total cb filter p bid hpb hpass]
        simp [hno, hrun]
      · intro hmem2
        exact not_mem_removeKey_self q t hq (hsub t hmem2)
    · have htr : t ∈ rest := by
        rcases List.mem_cons.mp ht with rfl | h
        · exact absurd rfl hta
        · exact h
      rcases hpass with rfl | rfl
      · obtain ⟨⟨p, bid⟩, hpb⟩ := Option.isSome_iff_exists.mp
          ((qget_isSome_iff q a).mpr (hmem a (List.mem_cons_self a rest)))
        by_cases hno : p.notifyOk
        · obtain ⟨q2, ns, hrun, hout⟩ := ih q (i + 1) hq hndr hrest htr hfail
            (Or.inl rfl)
          refine ⟨q2, ⟨a, i, total, cb, bid⟩ :: ns, ?_, hout⟩
          rw [informGo_cons_found q a rest i total cb none p bid hpb (Or.inl rfl)]
          simp [hno, hrun]
        · obtain ⟨q2, ns, hrun, hout⟩ := ih (qremoveKey q a) (i + 1)
            (nodup_removeKey q a hq) hndr
            (fun b hb => mem_removeKey_of_ne q a b (hne b hb) (hrest b hb)) htr
            (by
              intro p1 bid1 hget1
              exact hfail p1 bid1
                ((qget_removeKey_ne q t a (Ne.symm (hne t htr))) ▸ hget1))
            (Or.inl rfl)
          refine ⟨q2, ⟨a, i, total, cb, bid⟩ :: ns, ?_, hout⟩
          rw [informGo_cons_found q a rest i total cb none p bid hpb (Or.inl rfl)]
          simp [hno, hrun]
      · obtain ⟨q2, ns, hrun, hout⟩ := ih q (i + 1) hq hndr hrest htr hfail
          (Or.inr rfl)
        refine ⟨q2, ns, ?_, hout⟩
        rw [informGo_cons_skip q a t rest i total cb hta, hrun]


theorem innerCut_shape (ph : Phase) (env : AttemptEnv) (c : Nat) :
    shapeOK c env (contributeInnerCut ph env c) := by
  obtain ⟨crs, t1, con, t2, roo, t3, t4, com, t5, slo, t6, conf, t7, str, t8⟩ := env
  simp only [contributeInnerCut, innerStrike]
  by_cases h1 : ph.contributionTimeSecs < t1
  · simp [h1, shapeOK]
  rcases crs with e | _ | parent
  · simp [h1, shapeOK, errFrom]
  · simp [h1, shapeOK, errFrom]
  by_cases h2 : ph.contributionTimeSecs < t1 + t2
  · simp [h1, h2, shapeOK]
  rcases con with e | _ | raw
  · simp [h1, h2, shapeOK, errFrom]
  · by_cases h8 : ph.contributionTimeSecs < t1 + t2 + t8
    · simp [h1, h2, h8, shapeOK]
    rcases str with e | u
    · simp [h1, h2, h8, shapeOK, errFrom]
    · simp [h1, h2, h8, shapeOK]
  by_cases h3 : ph.contributionTimeSecs < t1 + t2 + t3
  · simp [h1, h2, h3, shapeOK]
  rcases roo with e | root
  · simp [h1, h2, h3, shapeOK, errFrom]
  by_cases h4 : ph.contributionTimeSecs < t1 + t2 + t3 + t4
  · simp [h1, h2, h3, h4, shapeOK]
  rcases hv : (ph.validate root raw).bind
      (fun x => if ph.isLinkedTo x parent then some x else none) with _ | contribution
  · by_cases h8 : ph.contributionTimeSecs < t1 + t2 + t3 + t4 + t8
    · simp [h1, h2, h3, h4, hv, h8, shapeOK]
    rcases str with e | u
    · simp [h1, h2, h3, h4, hv, h8, shapeOK, errFrom]
    · simp [h1, h2, h3, h4, hv, h8, shapeOK]
  by_cases h5 : ph.contributionTimeSecs < t1 + t2 + t3 + t4 + t5
  · simp [h1, h2, h3, h4, hv, h5, shapeOK]
  rcases com with e | u2
  · simp [h1, h2, h3, h4, hv, h5, shapeOK, errFrom]
  by_cases h6 : ph.contributionTimeSecs < t1 + t2 + t3 + t4 + t5 + t6
  · simp [h1, h2, h3, h4, hv, h5, h6, shapeOK]
  rcases slo with e | slot
  · simp [h1, h2, h3, h4, hv, h5, h6, shapeOK, errFrom]
  by_cases h7 : ph.contributionTimeSecs < t1 + t2 + t3 + t4 + t5 + t6 + t7
  · simp [h1, h2, h3, h4, hv, h5, h6, h7, shapeOK]
  rcases conf with e | u3
  · simp [h1, h2, h3, h4, hv, h5, h6, h7, shapeOK, errFrom]
  · simp [h1, h2, h3, h4, hv, h5, h6, h7, shapeOK]

theorem contribute_done (ph : Phase) (env : AttemptEnv) (c : Nat)
    (effs : List Effect) (r : Except Err Unit)
    (h : contributeInnerCut ph env c = (effs, .done r)) :
    contribute ph env c = (effs, r) := by
  unfold contribute
  rw [h]

theorem contribute_timedOut_ok (ph : Phase) (env : AttemptEnv) (c : Nat)
    (effs : List Effect) (h : contributeInnerCut ph env c = (effs, .timedOut))
    (hstr : env.strikeRes = .ok ()) :
    contribute ph env c = (effs ++ [Effect.strike c], .ok ()) := by
  unfold contribute
  rw [h]
  simp [hstr]

theorem contribute_timedOut_err (ph : Phase) (env : AttemptEnv) (c : Nat)
    (effs : List Effect) (e : Err)
    (h : contributeInnerCut ph env c = (effs, .timedOut))
    (hstr : env.strikeRes = .error e) :
    contribute ph env c = (effs, .error e) := by
  unfold contribute
  rw [h]
  simp [hstr]

theorem contribute_error_from (ph : Phase) (env : AttemptEnv) (c : Nat) (e : Err)
    (h : (contribute ph env c).2 = .error e) : errFrom env e := by
  have hs := innerCut_shape ph env c
  rcases hres : contributeInnerCut ph env c with ⟨effs, cut⟩
  rw [hres] at hs
  rcases cut with r | _
  · rw [contribute_done ph env c effs r hres] at h
    rcases r with e1 | u
    · simp only at h
      cases h
      simp only [shapeOK] at hs
      exact hs.1
    · simp at h
  · rcases hstr : env.strikeRes with e1 | u
    · rw [contribute_timedOut_err ph env c effs e1 hres hstr] at h
      simp only at h
      cases h
      right; right; right; right; right; right; right
      exact hstr
    · rw [contribute_timedOut_ok ph env c effs hres hstr] at h
      simp at h

theorem contribute_ok_shapes (ph : Phase) (env : AttemptEnv) (c : Nat)
    (h : (contribute ph env c).2 = .ok ()) :
    (contribute ph env c).1 = [Effect.strike c] ∨
    (∃ x s, (contribute ph env c).1 = [Effect.commit c x, Effect.confirmEff s]) ∨
    (∃ x, (contribute ph env c).1 = [Effect.commit c x, Effect.strike c] ∧
      (contributeInnerCut ph env c).2 = .timedOut) ∨
    ((contribute ph env c).1 = [Effect.strike c] ∧
      (contributeInnerCut ph env c).2 = .timedOut) := by
  have hs := innerCut_shape ph env c
  rcases hres : contributeInnerCut ph env c with ⟨effs, cut⟩
  rw [hres] at hs
  rcases cut with r | _
  · rw [contribute_done ph env c effs r hres]
    rw [contribute_done ph env c effs r hres] at h
    rcases r with e1 | u
    · simp at h
    · simp only [shapeOK] at hs
      rcases hs with h1 | ⟨x, s, h1⟩
      · exact Or.inl h1
      · exact Or.inr (Or.inl ⟨x, s, h1⟩)
  · rcases hstr : env.strikeRes with e1 | u
    · rw [contribute_timedOut_err ph env c effs e1 hres hstr] at h
      simp at h
    · rw [contribute_timedOut_ok ph env c effs hres hstr]
      simp only [shapeOK] at hs
      rcases hs with h1 | ⟨x, h1⟩
      · subst h1
        exact Or.inr (Or.inr (Or.inr ⟨rfl, rfl⟩))
      · subst h1
        exact Or.inr (Or.inr (Or.inl ⟨x, rfl, rfl⟩))

theorem innerCut_success (ph : Phase) (env : AttemptEnv) (c : Nat)
    (parent raw root ctr slot : Nat)
    (hcrs : env.currentCrs = .ok (some parent))
    (hcon : env.contributeRes = .ok (some raw))
    (hroot : env.fetchRoot = .ok root)
    (hval : ph.validate root raw = some ctr)
    (hlink : ph.isLinkedTo ctr parent = true)
    (hcommit : env.commitRes = .ok ())
    (hslot : env.currentSlot = .ok slot)
    (hconf : env.confirmRes = .ok ())
    (htime : env.tCrs + env.tContribute + env.tRoot + env.tValidate + env.tCommit +
      env.tSlot + env.tConfirm ≤ ph.contributionTimeSecs) :
    contributeInnerCut ph env c =
      ([Effect.commit c ctr, Effect.confirmEff slot], .done (.ok ())) := by
  have h1 : ¬ ph.contributionTimeSecs < env.tCrs := by omega
  have h2 : ¬ ph.contributionTimeSecs < env.tCrs + env.tContribute := by omega
  have h3 : ¬ ph.contributionTimeSecs < env.tCrs + env.tContribute + env.tRoot := by
    omega
  have h4 : ¬ ph.contributionTimeSecs <
      env.tCrs + env.tContribute + env.tRoot + env.tValidate := by omega
  have h5 : ¬ ph.contributionTimeSecs <
      env.tCrs + env.tContribute + env.tRoot + env.tValidate + env.tCommit := by
    omega
  have h6 : ¬ ph.contributionTimeSecs < env.tCrs + env.tContribute + env.tRoot +
      env.tValidate + env.tCommit + env.tSlot := by omega
  have h7 : ¬ ph.contributionTimeSecs < env.tCrs + env.tContribute + env.tRoot +
      env.tValidate + env.tCommit + env.tSlot + env.tConfirm := by omega
  simp [contributeInnerCut, h1, h2, h3, h4, h5, h6, h7, hcrs, hcon, hroot, hval,
    hlink, hcommit, hslot, hconf]

theorem innerCut_reject (ph : Phase) (env : AttemptEnv) (c : Nat)
    (parent raw root : Nat)
    (hcrs : env.currentCrs = .ok (some parent))
    (hcon : env.contributeRes = .ok (some raw))
    (hroot : env.fetchRoot = .ok root)
    (hrej : (ph.validate root raw).bind
      (fun x => if ph.isLinkedTo x parent then some x else none) = none)
    (hstr : env.strikeRes = .ok ())
    (htime : env.tCrs + env.tContribute + env.tRoot + env.tValidate + env.tStrike ≤
      ph.contributionTimeSecs) :
    contributeInnerCut ph env c = ([Effect.strike c], .done (.ok ())) := by
  have h1 : ¬ ph.contributionTimeSecs < env.tCrs := by omega
  have h2 : ¬ ph.contributionTimeSecs < env.tCrs + env.tContribute := by omega
  have h3 : ¬ ph.contributionTimeSecs < env.tCrs + env.tContribute + env.tRoot := by
    omega
  have h4 : ¬ ph.contributionTimeSecs <
      env.tCrs + env.tContribute + env.tRoot + env.tValidate := by omega
  have h8 : ¬ ph.contributionTimeSecs < env.tCrs + env.tContribute + env.tRoot +
      env.tValidate + env.tStrike := by omega
  simp [contributeInnerCut, innerStrike, h1, h2, h3, h4, h8, hcrs, hcon, hroot,
    hrej, hstr]

theorem innerCut_decline (ph : Phase) (env : AttemptEnv) (c : Nat) (parent : Nat)
    (hcrs : env.currentCrs = .ok (some parent))
    (hcon : env.contributeRes = .ok none)
    (hstr : env.strikeRes = .ok ())
    (htime : env.tCrs + env.tContribute + env.tStrike ≤ ph.contributionTimeSecs) :
    contributeInnerCut ph env c = ([Effect.strike c], .done (.ok ())) := by
  have h1 : ¬ ph.contributionTimeSecs < env.tCrs := by omega
  have h2 : ¬ ph.contributionTimeSecs < env.tCrs + env.tContribute := by omega
  have h8 : ¬ ph.contributionTimeSecs <
      env.tCrs + env.tContribute + env.tStrike := by omega
  simp [contributeInnerCut, innerStrike, h1, h2, h8, hcrs, hcon, hstr]

theorem innerCut_commitFail (ph : Phase) (env : AttemptEnv) (c : Nat)
    (parent raw root ctr : Nat) (e : Err)
    (hcrs : env.currentCrs = .ok (some parent))
    (hcon : env.contributeRes = .ok (some raw))
    (hroot : env.fetchRoot = .ok root)
    (hval : ph.validate root raw = some ctr)
    (hlink : ph.isLinkedTo ctr parent = true)
    (hcommit : env.commitRes = .error e)
    (htime : env.tCrs + env.tContribute + env.tRoot + env.tValidate + env.tCommit ≤
      ph.contributionTimeSecs) :
    contributeInnerCut ph env c = ([], .done (.error e)) := by
  have h1 : ¬ ph.contributionTimeSecs < env.tCrs := by omega
  have h2 : ¬ ph.contributionTimeSecs < env.tCrs + env.tContribute := by omega
  have h3 : ¬ ph.contributionTimeSecs < env.tCrs + env.tContribute + env.tRoot := by
    omega
  have h4 : ¬ ph.contributionTimeSecs <
      env.tCrs + env.tContribute + env.tRoot + env.tValidate := by omega
  have h5 : ¬ ph.contributionTimeSecs <
      env.tCrs + env.tContribute + env.tRoot + env.tValidate + env.tCommit := by
    omega
  simp [contributeInnerCut, h1, h2, h3, h4, h5, hcrs, hcon, hroot, hval, hlink,
    hcommit]

theorem innerCut_timeout_strike (ph : Phase) (env : AttemptEnv) (c : Nat)
    (hcut : (contributeInnerCut ph env c).2 = .timedOut)
    (hstr : env.strikeRes = .ok ()) :
    (contribute ph env c).2 = .ok () ∧
    strikeCount (contribute ph env c).1 = 1 ∧
    confirmCount (contribute ph env c).1 = 0 := by
  have hs := innerCut_shape ph env c
  rcases hres : contributeInnerCut ph env c with ⟨effs, cut⟩
  rw [hres] at hs
  rw [hres] at hcut
  simp only at hcut
  subst hcut
  rw [contribute_timedOut_ok ph env c effs hres hstr]
  simp only [shapeOK] at hs
  rcases hs with h1 | ⟨x, h1⟩ <;> subst h1 <;>
    simp [strikeCount, confirmCount]

theorem bits_le_one (h : HState) : busyBit h + finBit h ≤ 1 := by
  cases h <;> simp [busyBit, finBit]

theorem okCounts_of_inv (s : Sys) (d r hs ds : Nat) (h : SysInv s d r hs ds) :
    okCounts d r hs ds := by
  obtain ⟨h1, h2, h3, h4⟩ := h
  have hbit := bits_le_one s.handler
  constructor
  · rcases hc : s.coord with _ | cs
    · simp only [hc] at h4
      exact h4
    · simp only [hc] at h4
      cases hw : cs.want <;> simp [hw] at h4 <;> omega
  · omega

theorem coordIterate_cases (q : ParticipantQueue) (w : Bool) (mn : Option Nat) :
    coordIterate q w mn = CoordResult.panic ∨
    (∃ cs ns, coordIterate q w mn = .cont cs none ns ∧ cs.want = w) ∨
    (∃ cs wp ns, coordIterate q w mn = .cont cs (some wp) ns ∧ w = true ∧
      cs.want = false) := by
  simp only [coordIterate]
  cases hsc : score (qprune q) with
  | nil => exact Or.inr (Or.inl ⟨⟨qprune q, w⟩, [], rfl, rfl⟩)
  | cons contributor rest =>
    dsimp only
    cases hb : qbid (qprune q) contributor with
    | none => exact Or.inl rfl
    | some cb =>
      dsimp only
      cases hi : inform (qprune q) (contributor :: rest) cb mn with
      | none => exact Or.inl rfl
      | some pr =>
        obtain ⟨q3, ns⟩ := pr
        cases w with
        | false => exact Or.inr (Or.inl ⟨⟨q3, false⟩, ns, rfl, rfl⟩)
        | true =>
          dsimp only
          cases hg : qget q3 contributor with
          | none => exact Or.inl rfl
          | some pp =>
            obtain ⟨p, bidp⟩ := pp
            exact Or.inr (Or.inr ⟨⟨qremoveKey q3 contributor, false⟩,
              (contributor, p), ns, rfl, rfl, rfl⟩)

theorem ite_tt (a b : Nat) : (if (true = true) then a else b) = a := rfl

theorem ite_ff (a b : Nat) : (if (false = true) then a else b) = b := rfl

theorem ite_True (a b : Nat) : (if True then a else b) = a := by simp

theorem ite_False (a b : Nat) : (if False then a else b) = b := by simp

theorem sysStep_preserve (s : Sys) (c : SysChoice) (d r hs ds : Nat)
    (h : SysInv s d r hs ds) :
    SysInv (sysStep s c).1 (d + nD (sysStep s c).2) (r + nR (sysStep s c).2)
      (hs + nHS (sysStep s c).2) (ds + nDS (sysStep s c).2) ∧
    traceOK d r hs ds (sysStep s c).2 := by
  obtain ⟨h1, h2, h3, h4⟩ := h
  have hbit := bits_le_one s.handler
  simp only [SysInv, startOcc, doneOcc, ite_tt, ite_True, ite_ff, ite_False, Option.isSome_some, Option.isSome_none] at h1 h2
  cases c with
  | deliverArrival =>
    cases hc : s.coord with
    | none =>
      simp only [hc] at h4
      simp only [sysStep, hc, nD, nR, nHS, nDS, List.map_nil, List.sum_nil,
        Nat.add_zero, traceOK, and_true, SysInv, startOcc, doneOcc, ite_tt, ite_True, ite_ff, ite_False, Option.isSome_some, Option.isSome_none]
      exact ⟨h1, h2, h3, h4⟩
    | some cs =>
      simp only [hc] at h4
      cases harr : s.arrivals with
      | nil =>
        simp only [sysStep, hc, harr, nD, nR, nHS, nDS, List.map_nil,
          List.sum_nil, Nat.add_zero, traceOK, and_true, SysInv, startOcc,
          doneOcc, ite_tt, ite_True, ite_ff, ite_False, Option.isSome_some, Option.isSome_none]
        exact ⟨h1, h2, h3, h4⟩
      | cons pb rest =>
        obtain ⟨p, b⟩ := pb
        cases hcw : cs.want with
        | true =>
          simp only [hcw, ite_tt, ite_True] at h4
          rcases coordIterate_cases (qadd cs.queue p b) true (some p.addr) with
            hP | ⟨cs1, ns, hC, hw⟩ | ⟨cs1, wp, ns, hC, hw, hw1⟩
          · simp only [sysStep, hc, harr, coordStep, hcw, hP, applyCoord, nD,
              nR, nHS, nDS, List.map_cons, List.map_nil, List.sum_cons,
              List.sum_nil, labD, labR, labHS, labDS, Nat.add_zero,
              List.nil_append, traceOK, okCounts, and_true, SysInv, startOcc,
              doneOcc, ite_tt, ite_True, ite_ff, ite_False, Option.isSome_some, Option.isSome_none]
            repeat' apply And.intro
            all_goals omega
          · simp only [sysStep, hc, harr, coordStep, hcw, hC, applyCoord, nD,
              nR, nHS, nDS, List.map_nil, List.sum_nil, Nat.add_zero, traceOK,
              and_true, SysInv, startOcc, doneOcc, hw, ite_tt, ite_True, ite_ff, ite_False, Option.isSome_some, Option.isSome_none]
            repeat' apply And.intro
            all_goals omega
          · obtain ⟨w, pp⟩ := wp
            simp only [sysStep, hc, harr, coordStep, hcw, hC, applyCoord, nD,
              nR, nHS, nDS, List.map_cons, List.map_nil, List.sum_cons,
              List.sum_nil, labD, labR, labHS, labDS, Nat.add_zero,
              List.nil_append, traceOK, okCounts, and_true, SysInv, startOcc,
              doneOcc, hw1, ite_ff, ite_False, Option.isSome_some, ite_tt, ite_True, Option.isSome_none]
            repeat' apply And.intro
            all_goals omega
        | false =>
          simp only [hcw, ite_ff, ite_False] at h4
          rcases coordIterate_cases (qadd cs.queue p b) false (some p.addr) with
            hP | ⟨cs1, ns, hC, hw⟩ | ⟨cs1, wp, ns, hC, hw, hw1⟩
          · simp only [sysStep, hc, harr, coordStep, hcw, hP, applyCoord, nD,
              nR, nHS, nDS, List.map_cons, List.map_nil, List.sum_cons,
              List.sum_nil, labD, labR, labHS, labDS, Nat.add_zero,
              List.nil_append, traceOK, okCounts, and_true, SysInv, startOcc,
              doneOcc, ite_tt, ite_True, ite_ff, ite_False, Option.isSome_some, Option.isSome_none]
            repeat' apply And.intro
            all_goals omega
          · simp only [sysStep, hc, harr, coordStep, hcw, hC, applyCoord, nD,
              nR, nHS, nDS, List.map_nil, List.sum_nil, Nat.add_zero, traceOK,
              and_true, SysInv, startOcc, doneOcc, hw, ite_ff, ite_False, ite_tt, ite_True, Option.isSome_some, Option.isSome_none]
            repeat' apply And.intro
            all_goals omega
          · exact absurd hw Bool.false_ne_true
  | deliverDone =>
    cases hc : s.coord with
    | none =>
      simp only [hc] at h4
      simp only [sysStep, hc, nD, nR, nHS, nDS, List.map_nil, List.sum_nil,
        Nat.add_zero, traceOK, and_true, SysInv, startOcc, doneOcc, ite_tt, ite_True, ite_ff, ite_False, Option.isSome_some, Option.isSome_none]
      exact ⟨h1, h2, h3, h4⟩
    | some cs =>
      simp only [hc] at h4
      cases hdc : s.doneChan with
      | false =>
        rw [hdc] at h2
        simp only [sysStep, hc, hdc, nD, nR, nHS, nDS, List.map_nil,
          List.sum_nil, Nat.add_zero, traceOK, and_true, SysInv, startOcc,
          doneOcc, ite_tt, ite_True, ite_ff, ite_False, Option.isSome_some, Option.isSome_none]
        exact ⟨h1, h2, h3, h4⟩
      | true =>
        simp only [hdc, ite_tt, ite_True] at h2
        cases hcw : cs.want with
        | true =>
          simp only [hcw, ite_tt, ite_True] at h4
          rcases coordIterate_cases cs.queue true none with
            hP | ⟨cs1, ns, hC, hw⟩ | ⟨cs1, wp, ns, hC, hw, hw1⟩
          · simp only [sysStep, hc, hdc, coordStep, hP, applyCoord, nD, nR,
              nHS, nDS, List.map_cons, List.map_nil, List.sum_cons,
              List.sum_nil, labD, labR, labHS, labDS, Nat.add_zero,
              List.cons_append, List.nil_append, traceOK, okCounts, and_true,
              SysInv, startOcc, doneOcc, ite_tt, ite_True, ite_ff, ite_False, Option.isSome_some, Option.isSome_none]
            repeat' apply And.intro
            all_goals omega
          · simp only [sysStep, hc, hdc, coordStep, hC, applyCoord, nD, nR,
              nHS, nDS, List.map_cons, List.map_nil, List.sum_cons,
              List.sum_nil, labD, labR, labHS, labDS, Nat.add_zero, traceOK,
              okCounts, and_true, SysInv, startOcc, doneOcc, hw, ite_tt, ite_True, ite_ff, ite_False, Option.isSome_some, Option.isSome_none]
            repeat' apply And.intro
            all_goals omega
          · obtain ⟨w, pp⟩ := wp
            simp only [sysStep, hc, hdc, coordStep, hC, applyCoord, nD, nR,
              nHS, nDS, List.map_cons, List.map_nil, List.sum_cons,
              List.sum_nil, labD, labR, labHS, labDS, Nat.add_zero,
              List.cons_append, List.nil_append, traceOK, okCounts, and_true,
              SysInv, startOcc, doneOcc, hw1, ite_ff, ite_False, Option.isSome_some,
              ite_tt, ite_True, Option.isSome_none]
            repeat' apply And.intro
            all_goals omega
        | false =>
          simp only [hcw, ite_ff, ite_False] at h4
          rcases coordIterate_cases cs.queue true none with
            hP | ⟨cs1, ns, hC, hw⟩ | ⟨cs1, wp, ns, hC, hw, hw1⟩
          · simp only [sysStep, hc, hdc, coordStep, hP, applyCoord, nD, nR,
              nHS, nDS, List.map_cons, List.map_nil, List.sum_cons,
              List.sum_nil, labD, labR, labHS, labDS, Nat.add_zero,
              List.cons_append, List.nil_append, traceOK, okCounts, and_true,
              SysInv, startOcc, doneOcc, ite_tt, ite_True, ite_ff, ite_False, Option.isSome_some, Option.isSome_none]
            repeat' apply And.intro
            all_goals omega
          · simp only [sysStep, hc, hdc, coordStep, hC, applyCoord, nD, nR,
              nHS, nDS, List.map_cons, List.map_nil, List.sum_cons,
              List.sum_nil, labD, labR, labHS, labDS, Nat.add_zero, traceOK,
              okCounts, and_true, SysInv, startOcc, doneOcc, hw, ite_tt, ite_True, ite_ff, ite_False, Option.isSome_some, Option.isSome_none]
            repeat' apply And.intro
            all_goals omega
          · obtain ⟨w, pp⟩ := wp
            simp only [sysStep, hc, hdc, coordStep, hC, applyCoord, nD, nR,
              nHS, nDS, List.map_cons, List.map_nil, List.sum_cons,
              List.sum_nil, labD, labR, labHS, labDS, Nat.add_zero,
              List.cons_append, List.nil_append, traceOK, okCounts, and_true,
              SysInv, startOcc, doneOcc, hw1, ite_ff, ite_False, Option.isSome_some,
              ite_tt, ite_True, Option.isSome_none]
            repeat' apply And.intro
            all_goals omega
  | deliverFinish =>
    cases hc : s.coord with
    | none =>
      simp only [hc] at h4
      simp only [sysStep, hc, nD, nR, nHS, nDS, List.map_nil, List.sum_nil,
        Nat.add_zero, traceOK, and_true, SysInv, startOcc, doneOcc, ite_tt, ite_True, ite_ff, ite_False, Option.isSome_some, Option.isSome_none]
      exact ⟨h1, h2, h3, h4⟩
    | some cs =>
      simp only [hc] at h4
      cases hh : s.handler with
      | idle =>
        rw [hh] at h3
        simp only [sysStep, hc, hh, nD, nR, nHS, nDS, List.map_nil,
          List.sum_nil, Nat.add_zero, traceOK, and_true, SysInv, startOcc,
          doneOcc, ite_tt, ite_True, ite_ff, ite_False, Option.isSome_some, Option.isSome_none]
        exact ⟨h1, h2, h3, h4⟩
      | busy w =>
        rw [hh] at h3
        simp only [sysStep, hc, hh, nD, nR, nHS, nDS, List.map_nil,
          List.sum_nil, Nat.add_zero, traceOK, and_true, SysInv, startOcc,
          doneOcc, ite_tt, ite_True, ite_ff, ite_False, Option.isSome_some, Option.isSome_none]
        exact ⟨h1, h2, h3, h4⟩
      | observed =>
        rw [hh] at h3
        simp only [sysStep, hc, hh, nD, nR, nHS, nDS, List.map_nil,
          List.sum_nil, Nat.add_zero, traceOK, and_true, SysInv, startOcc,
          doneOcc, ite_tt, ite_True, ite_ff, ite_False, Option.isSome_some, Option.isSome_none]
        exact ⟨h1, h2, h3, h4⟩
      | finished e =>
        rw [hh] at h3 hbit
        simp only [busyBit, finBit] at h3 hbit
        cases hcw : cs.want with
        | true =>
          simp only [hcw, ite_tt, ite_True] at h4
          simp only [sysStep, hc, hh, coordStep, applyCoord, nD, nR, nHS, nDS,
            List.map_cons, List.map_nil, List.sum_cons, List.sum_nil, labD,
            labR, labHS, labDS, Nat.add_zero, List.nil_append, traceOK,
            okCounts, and_true, SysInv, startOcc, doneOcc, busyBit, finBit, ite_tt, ite_True, ite_ff, ite_False, Option.isSome_some, Option.isSome_none]
          repeat' apply And.intro
          all_goals omega
        | false =>
          simp only [hcw, ite_ff, ite_False] at h4
          simp only [sysStep, hc, hh, coordStep, applyCoord, nD, nR, nHS, nDS,
            List.map_cons, List.map_nil, List.sum_cons, List.sum_nil, labD,
            labR, labHS, labDS, Nat.add_zero, List.nil_append, traceOK,
            okCounts, and_true, SysInv, startOcc, doneOcc, busyBit, finBit, ite_tt, ite_True, ite_ff, ite_False, Option.isSome_some, Option.isSome_none]
          repeat' apply And.intro
          all_goals omega
  | handlerRecv =>
    have h4ok : d ≤ r + 1 := by
      rcases hco : s.coord with _ | cs
      · simp only [hco] at h4
        exact h4
      · simp only [hco] at h4
        cases hcw : cs.want <;> simp only [hcw, ite_tt, ite_True, ite_ff, ite_False] at h4 <;> omega
    cases hh : s.handler with
    | idle =>
      cases hsc : s.startChan with
      | none =>
        rw [hsc] at h1
        rw [hh] at h3
        simp only [sysStep, hh, hsc, nD, nR, nHS, nDS, List.map_nil,
          List.sum_nil, Nat.add_zero, traceOK, and_true, SysInv, startOcc,
          doneOcc, ite_tt, ite_True, ite_ff, ite_False, Option.isSome_some, Option.isSome_none]
        exact ⟨h1, h2, h3, h4⟩
      | some wp =>
        obtain ⟨w, p⟩ := wp
        rw [hh] at h3 hbit
        rw [hsc] at h1
        simp only [busyBit, finBit] at h3 hbit
        simp only [Option.isSome_some, ite_tt, ite_True] at h1
        simp only [sysStep, hh, hsc, nD, nR, nHS, nDS, List.map_cons,
          List.map_nil, List.sum_cons, List.sum_nil, labD, labR, labHS, labDS,
          Nat.add_zero, traceOK, okCounts, and_true, SysInv, startOcc, doneOcc,
          busyBit, finBit, ite_tt, ite_True, ite_ff, ite_False, Option.isSome_some, Option.isSome_none]
        refine ⟨⟨?_, h2, ?_, by simpa using h4⟩, ?_, ?_⟩
        all_goals omega
    | busy w =>
      rw [hh] at h3
      simp only [sysStep, hh, nD, nR, nHS, nDS, List.map_nil, List.sum_nil,
        Nat.add_zero, traceOK, and_true, SysInv, startOcc, doneOcc, ite_tt, ite_True, ite_ff, ite_False, Option.isSome_some, Option.isSome_none]
      exact ⟨h1, h2, h3, h4⟩
    | finished e =>
      rw [hh] at h3
      simp only [sysStep, hh, nD, nR, nHS, nDS, List.map_nil, List.sum_nil,
        Nat.add_zero, traceOK, and_true, SysInv, startOcc, doneOcc, ite_tt, ite_True, ite_ff, ite_False, Option.isSome_some, Option.isSome_none]
      exact ⟨h1, h2, h3, h4⟩
    | observed =>
      rw [hh] at h3
      simp only [sysStep, hh, nD, nR, nHS, nDS, List.map_nil, List.sum_nil,
        Nat.add_zero, traceOK, and_true, SysInv, startOcc, doneOcc, ite_tt, ite_True, ite_ff, ite_False, Option.isSome_some, Option.isSome_none]
      exact ⟨h1, h2, h3, h4⟩
  | handlerOk =>
    have h4ok : d ≤ r + 1 := by
      rcases hco : s.coord with _ | cs
      · simp only [hco] at h4
        exact h4
      · simp only [hco] at h4
        cases hcw : cs.want <;> simp only [hcw, ite_tt, ite_True, ite_ff, ite_False] at h4 <;> omega
    cases hh : s.handler with
    | busy w =>
      cases hdc : s.doneChan with
      | false =>
        rw [hh] at h3 hbit
        rw [hdc] at h2
        simp only [busyBit, finBit] at h3 hbit
        simp only [ite_ff, ite_False] at h2
        simp only [sysStep, hh, hdc, nD, nR, nHS, nDS, List.map_cons,
          List.map_nil, List.sum_cons, List.sum_nil, labD, labR, labHS, labDS,
          Nat.add_zero, traceOK, okCounts, and_true, SysInv, startOcc, doneOcc,
          busyBit, finBit, ite_tt, ite_True, ite_ff, ite_False, Option.isSome_some, Option.isSome_none]
        refine ⟨⟨h1, ?_, ?_, by simpa using h4⟩, ?_, ?_⟩
        all_goals omega
      | true =>
        rw [hh] at h3
        rw [hdc] at h2
        simp only [sysStep, hh, hdc, nD, nR, nHS, nDS, List.map_nil,
          List.sum_nil, Nat.add_zero, traceOK, and_true, SysInv, startOcc,
          doneOcc, ite_tt, ite_True, ite_ff, ite_False, Option.isSome_some, Option.isSome_none]
        exact ⟨h1, h2, h3, h4⟩
    | idle =>
      rw [hh] at h3
      simp only [sysStep, hh, nD, nR, nHS, nDS, List.map_nil, List.sum_nil,
        Nat.add_zero, traceOK, and_true, SysInv, startOcc, doneOcc, ite_tt, ite_True, ite_ff, ite_False, Option.isSome_some, Option.isSome_none]
      exact ⟨h1, h2, h3, h4⟩
    | finished e =>
      rw [hh] at h3
      simp only [sysStep, hh, nD, nR, nHS, nDS, List.map_nil, List.sum_nil,
        Nat.add_zero, traceOK, and_true, SysInv, startOcc, doneOcc, ite_tt, ite_True, ite_ff, ite_False, Option.isSome_some, Option.isSome_none]
      exact ⟨h1, h2, h3, h4⟩
    | observed =>
      rw [hh] at h3
      simp only [sysStep, hh, nD, nR, nHS, nDS, List.map_nil, List.sum_nil,
        Nat.add_zero, traceOK, and_true, SysInv, startOcc, doneOcc, ite_tt, ite_True, ite_ff, ite_False, Option.isSome_some, Option.isSome_none]
      exact ⟨h1, h2, h3, h4⟩
  | handlerErr e =>
    have h4ok : d ≤ r + 1 := by
      rcases hco : s.coord with _ | cs
      · simp only [hco] at h4
        exact h4
      · simp only [hco] at h4
        cases hcw : cs.want <;> simp only [hcw, ite_tt, ite_True, ite_ff, ite_False] at h4 <;> omega
    cases hh : s.handler with
    | busy w =>
      rw [hh] at h3 hbit
      simp only [busyBit, finBit] at h3 hbit
      simp only [sysStep, hh, nD, nR, nHS, nDS, List.map_cons, List.map_nil,
        List.sum_cons, List.sum_nil, labD, labR, labHS, labDS, Nat.add_zero,
        traceOK, okCounts, and_true, SysInv, startOcc, doneOcc, busyBit, finBit, ite_tt, ite_True, ite_ff, ite_False, Option.isSome_some, Option.isSome_none]
      refine ⟨⟨h1, h2, ?_, by simpa using h4⟩, ?_, ?_⟩
      all_goals omega
    | idle =>
      rw [hh] at h3
      simp only [sysStep, hh, nD, nR, nHS, nDS, List.map_nil, List.sum_nil,
        Nat.add_zero, traceOK, and_true, SysInv, startOcc, doneOcc, ite_tt, ite_True, ite_ff, ite_False, Option.isSome_some, Option.isSome_none]
      exact ⟨h1, h2, h3, h4⟩
    | finished e2 =>
      rw [hh] at h3
      simp only [sysStep, hh, nD, nR, nHS, nDS, List.map_nil, List.sum_nil,
        Nat.add_zero, traceOK, and_true, SysInv, startOcc, doneOcc, ite_tt, ite_True, ite_ff, ite_False, Option.isSome_some, Option.isSome_none]
      exact ⟨h1, h2, h3, h4⟩
    | observed =>
      rw [hh] at h3
      simp only [sysStep, hh, nD, nR, nHS, nDS, List.map_nil, List.sum_nil,
        Nat.add_zero, traceOK, and_true, SysInv, startOcc, doneOcc, ite_tt, ite_True, ite_ff, ite_False, Option.isSome_some, Option.isSome_none]
      exact ⟨h1, h2, h3, h4⟩

theorem traceOK_append (xs : List SysLabel) :
    ∀ (ys : List SysLabel) (d r hs ds : Nat), traceOK d r hs ds xs →
      traceOK (d + nD xs) (r + nR xs) (hs + nHS xs) (ds + nDS xs) ys →
      traceOK d r hs ds (xs ++ ys) := by
  induction xs with
  | nil =>
    intro ys d r hs ds _ h2
    simpa [nD, nR, nHS, nDS] using h2
  | cons l ls ih =>
    intro ys d r hs ds h1 h2
    simp only [List.cons_append, traceOK] at h1 ⊢
    refine ⟨h1.1, ih ys _ _ _ _ h1.2 ?_⟩
    simpa [nD, nR, nHS, nDS, Nat.add_assoc] using h2

theorem runSys_traceOK (sched : List SysChoice) :
    ∀ (s : Sys) (d r hs ds : Nat), SysInv s d r hs ds →
      traceOK d r hs ds (runSys s sched).2 := by
  induction sched with
  | nil =>
    intro s d r hs ds _
    simp [runSys, traceOK]
  | cons c rest ih =>
    intro s d r hs ds hinv
    obtain ⟨hinv2, htr⟩ := sysStep_preserve s c d r hs ds hinv
    rcases hstep : sysStep s c with ⟨s1, ls⟩
    rw [hstep] at hinv2 htr
    rcases hrun : runSys s1 rest with ⟨s2, ls2⟩
    have hih := ih s1 _ _ _ _ hinv2
    rw [hrun] at hih
    simp only [runSys, hstep, hrun]
    exact traceOK_append ls ls2 d r hs ds htr hih

theorem sysStep_dead (s : Sys) (c : SysChoice) (hdead : s.coord = none) :
    (sysStep s c).1.coord = none ∧
      ∀ w, SysLabel.dispatch w ∉ (sysStep s c).2 := by
  cases c with
  | deliverArrival => simp [sysStep, hdead]
  | deliverDone => simp [sysStep, hdead]
  | deliverFinish => simp [sysStep, hdead]
  | handlerRecv =>
    cases hh : s.handler <;> cases hsc : s.startChan <;>
      simp [sysStep, hh, hsc, hdead]
  | handlerOk =>
    cases hh : s.handler <;> cases hdc : s.doneChan <;>
      simp [sysStep, hh, hdc, hdead]
  | handlerErr e =>
    cases hh : s.handler <;> simp [sysStep, hh, hdead]

theorem runSys_dead (sched : List SysChoice) :
    ∀ (s : Sys), s.coord = none →
      ∀ w, SysLabel.dispatch w ∉ (runSys s sched).2 := by
  induction sched with
  | nil =>
    intro s _ w
    simp [runSys]
  | cons c rest ih =>
    intro s hdead w
    obtain ⟨hd2, hnd⟩ := sysStep_dead s c hdead
    rcases hstep : sysStep s c with ⟨s1, ls⟩
    rw [hstep] at hd2 hnd
    rcases hrun : runSys s1 rest with ⟨s2, ls2⟩
    have hih := ih s1 hd2 w
    rw [hrun] at hih
    simp only [runSys, hstep, hrun]
    intro hmem
    rcases List.mem_append.mp hmem with hmem1 | hmem1
    · exact hnd w hmem1
    · exact hih hmem1

theorem initSys_inv (arrivals : List (Participant × Nat)) :
    SysInv (initSys arrivals) 0 0 0 0 := by
  simp [SysInv, initSys, startOcc, doneOcc, busyBit, finBit]

theorem inform_score_some (q : ParticipantQueue) (cb : Nat) (filter : Option Nat)
    (h : (qkeys q).Nodup) :
    ∃ q2 ns, inform q (score q) cb filter = some (q2, ns) := by
  obtain ⟨q2, ns, hrun, _⟩ := informGo_some (score q).length cb filter (score q)
    q 0 (score_nodup q h) (fun b hb => score_mem q b hb)
  exact ⟨q2, ns, hrun⟩

theorem inform_complete_notes (q : ParticipantQueue) (cb : Nat)
    (h : (qkeys q).Nodup) :
    ∃ q2, inform q (score q) cb none =
      some (q2, rankedNotes q cb (score q).length 0 (score q)) := by
  obtain ⟨q2, hrun⟩ := informGo_notes (score q).length cb (score q) q 0
    (score_nodup q h) (fun b hb => score_mem q b hb)
  exact ⟨q2, hrun⟩

theorem coordStep_arrival_notes (cs : CoordState) (p : Participant) (b : Nat)
    (cs1 : CoordState) (dsp : Option (Nat × Participant))
    (ns : List Notification)
    (h : coordStep cs (.newParticipant p b) = .cont cs1 dsp ns) :
    ∀ n ∈ ns, n.addr = p.addr := by
  simp only [coordStep, coordIterate] at h
  cases hsc : score (qprune (qadd cs.queue p b)) with
  | nil =>
    simp only [hsc] at h
    injection h with h1 h2 h3
    subst h3
    simp
  | cons contributor rest =>
    simp only [hsc] at h
    cases hb : qbid (qprune (qadd cs.queue p b)) contributor with
    | none =>
      simp only [hb] at h
      cases h
    | some cb =>
      simp only [hb] at h
      cases hi : inform (qprune (qadd cs.queue p b)) (contributor :: rest) cb
          (some p.addr) with
      | none =>
        simp only [hi] at h
        cases h
      | some pr =>
        obtain ⟨q3, ns0⟩ := pr
        simp only [hi] at h
        have hall : ∀ n ∈ ns0, n.addr = p.addr :=
          informGo_filter (contributor :: rest).length cb p.addr
            (contributor :: rest) (qprune (qadd cs.queue p b)) 0 q3 ns0 hi
        cases hwv : cs.want with
        | true =>
          rw [hwv] at h
          rw [if_pos rfl] at h
          cases hg : qget q3 contributor with
          | none =>
            rw [hg] at h
            cases h
          | some pp =>
            obtain ⟨p1, b1⟩ := pp
            rw [hg] at h
            injection h with h1 h2 h3
            subst h3
            exact hall
        | false =>
          rw [hwv] at h
          rw [if_neg (by simp)] at h
          injection h with h1 h2 h3
          subst h3
          exact hall

/-- C1: At most one contribution attempt is ever in flight.  For any pending
arrivals and any interleaving (schedule) of the composed coordinator/handler
system, every prefix of the emitted label trace satisfies: the number of
dispatches to the Contribution Handler never exceeds the number of completion
signals received by the coordinator plus one (want-contribution is cleared on
dispatch and set again only by a Completion event), and the number of
attempts the handler has started never exceeds the number of completion
signals it has sent plus one. -/
theorem c1_at_most_one_in_flight (arrivals : List (Participant × Nat))
    (sched : List SysChoice) :
    traceOK 0 0 0 0 (runSys (initSys arrivals) sched).2 :=
  runSys_traceOK sched (initSys arrivals) 0 0 0 0 (initSys_inv arrivals)

/-- Counterexample to C2 as stated: an attempt in which the participant
session itself fails its contribution call terminates the handler with that
error even though every storage and phase collaborator call succeeded, so a
participant-side fault is propagated as a failure of the coordinator, and
more than storage/phase failures terminate the handler. -/
theorem c2_counterexample :
    contribute phW envC2x 2 = ([], .error "participant protocol failure") ∧
    envC2x.currentCrs = .ok (some 5) ∧ envC2x.fetchRoot = .ok 5 ∧
    envC2x.commitRes = .ok () ∧ envC2x.currentSlot = .ok 9 ∧
    envC2x.confirmRes = .ok () ∧ envC2x.strikeRes = .ok () :=
  ⟨rfl, rfl, rfl, rfl, rfl, rfl, rfl⟩

/-- C2 amended: participant timeouts, declined contributions (no candidate)
and invalid or unlinked contributions are recovered locally with exactly one
strike and the handler keeps running; but every error the handler propagates
is the error result of one of the collaborator calls of the attempt — the
storage/phase calls, the missing-phase panic, or the participant session
calls themselves (contribute, confirm), the last of which the original claim
did not allow. -/
theorem c2_amended (ph : Phase) (env : AttemptEnv) (c : Nat) :
    (∀ e, (contribute ph env c).2 = .error e → errFrom env e) ∧
    ((contributeInnerCut ph env c).2 = .timedOut → env.strikeRes = .ok () →
      (contribute ph env c).2 = .ok () ∧
      strikeCount (contribute ph env c).1 = 1) ∧
    (∀ parent, env.currentCrs = .ok (some parent) →
      env.contributeRes = .ok none → env.strikeRes = .ok () →
      env.tCrs + env.tContribute + env.tStrike ≤ ph.contributionTimeSecs →
      contribute ph env c = ([Effect.strike c], .ok ())) ∧
    (∀ parent raw root, env.currentCrs = .ok (some parent) →
      env.contributeRes = .ok (some raw) → env.fetchRoot = .ok root →
      (ph.validate root raw).bind
        (fun x => if ph.isLinkedTo x parent then some x else none) = none →
      env.strikeRes = .ok () →
      env.tCrs + env.tContribute + env.tRoot + env.tValidate + env.tStrike ≤
        ph.contributionTimeSecs →
      contribute ph env c = ([Effect.strike c], .ok ())) := by
  refine ⟨contribute_error_from ph env c, ?_, ?_, ?_⟩
  · intro hcut hstr
    exact ⟨(innerCut_timeout_strike ph env c hcut hstr).1,
      (innerCut_timeout_strike ph env c hcut hstr).2.1⟩
  · intro parent h1 h2 h3 h4
    exact contribute_done ph env c _ _ (innerCut_decline ph env c parent h1 h2 h3 h4)
  · intro parent raw root h1 h2 h3 h4 h5 h6
    exact contribute_done ph env c _ _
      (innerCut_reject ph env c parent raw root h1 h2 h3 h4 h5 h6)

/-- Witness for C2 amended: a declined contribution is closed locally with
exactly one strike and an Ok handler result. -/
theorem c2_amended_witness :
    contribute phW envDecline 1 = ([Effect.strike 1], .ok ()) :=
  (c2_amended phW envDecline 1).2.2.1 5 rfl rfl rfl (by decide)

/-- Counterexample to C3 as stated: the participant returns its candidate at
time 2, well before the 10 second deadline, and the candidate validates and
links; yet because validation itself takes 100, the deadline expires while
the validation result is awaited, and the attempt closes with a timeout
strike instead of the commit and confirmation the predicates dictate. -/
theorem c3_counterexample :
    envC3x.tCrs + envC3x.tContribute ≤ phW.contributionTimeSecs ∧
    envC3x.contributeRes = .ok (some 5) ∧
    phW.validate 5 5 = some 5 ∧ phW.isLinkedTo 5 5 = true ∧
    contribute phW envC3x 0 = ([Effect.strike 0], .ok ()) :=
  ⟨by decide, rfl, by decide, by decide, by decide⟩

/-- C3 amended: if the whole inner attempt — root fetch, validation, and on
success commit, slot lookup and confirmation, or on rejection the strike —
completes before the contribution-time deadline and the storage calls
succeed, then the outcome is determined solely by the validation and
parent-link predicates: commit and confirmation on success, a single strike
on rejection, never a timeout strike. -/
theorem c3_amended (ph : Phase) (env : AttemptEnv) (c : Nat)
    (parent raw root slot : Nat)
    (hcrs : env.currentCrs = .ok (some parent))
    (hcon : env.contributeRes = .ok (some raw))
    (hroot : env.fetchRoot = .ok root)
    (hcommit : env.commitRes = .ok ()) (hslot : env.currentSlot = .ok slot)
    (hconf : env.confirmRes = .ok ()) (hstr : env.strikeRes = .ok ())
    (htime : env.tCrs + env.tContribute + env.tRoot + env.tValidate +
      env.tCommit + env.tSlot + env.tConfirm ≤ ph.contributionTimeSecs)
    (htime2 : env.tCrs + env.tContribute + env.tRoot + env.tValidate +
      env.tStrike ≤ ph.contributionTimeSecs) :
    (∀ ctr, ph.validate root raw = some ctr → ph.isLinkedTo ctr parent = true →
      contribute ph env c =
        ([Effect.commit c ctr, Effect.confirmEff slot], .ok ())) ∧
    ((ph.validate root raw).bind
        (fun x => if ph.isLinkedTo x parent then some x else none) = none →
      contribute ph env c = ([Effect.strike c], .ok ())) := by
  constructor
  · intro ctr hval hlink
    exact contribute_done ph env c _ _ (innerCut_success ph env c parent raw
      root ctr slot hcrs hcon hroot hval hlink hcommit hslot hconf htime)
  · intro hrej
    exact contribute_done ph env c _ _ (innerCut_reject ph env c parent raw
      root hcrs hcon hroot hrej hstr htime2)

/-- Witness for C3 amended: a fast, valid, linked attempt commits and
confirms. -/
theorem c3_amended_witness :
    contribute phW envSuccess 3 =
      ([Effect.commit 3 5, Effect.confirmEff 9], .ok ()) :=
  (c3_amended phW envSuccess 3 5 5 5 9 rfl rfl rfl rfl rfl rfl rfl (by decide)
    (by decide)).1 5 (by decide) (by decide)

/-- Counterexample to C4 as stated: an attempt whose commit succeeds within
the deadline but whose confirmation send outlives it closes without success
(timeout strike, no confirmation), yet a commit was performed — refuting
that every non-success close performs no commit. -/
theorem c4_counterexample :
    contribute phW envC4x 3 = ([Effect.commit 3 5, Effect.strike 3], .ok ()) ∧
    confirmCount [Effect.commit 3 5, Effect.strike 3] = 0 ∧
    commitCount [Effect.commit 3 5, Effect.strike 3] = 1 :=
  ⟨by decide, by decide, by decide⟩

/-- C4 amended: every attempt that closes without success (the handler
returns Ok and no confirmation was sent) records exactly one strike; no
commit is performed unless the deadline expired only after the commit had
already succeeded (during slot lookup or confirmation), in which case the
one commit persists alongside the timeout strike. -/
theorem c4_amended (ph : Phase) (env : AttemptEnv) (c : Nat)
    (hok : (contribute ph env c).2 = .ok ())
    (hnoconf : confirmCount (contribute ph env c).1 = 0) :
    strikeCount (contribute ph env c).1 = 1 ∧
    (commitCount (contribute ph env c).1 = 0 ∨
      (commitCount (contribute ph env c).1 = 1 ∧
        (contributeInnerCut ph env c).2 = .timedOut)) := by
  rcases contribute_ok_shapes ph env c hok with h | ⟨x, sl, h⟩ | ⟨x, h, hcut⟩ |
    ⟨h, hcut⟩
  · rw [h]
    simp [strikeCount, commitCount]
  · rw [h] at hnoconf
    simp [confirmCount] at hnoconf
  · rw [h]
    simp [strikeCount, commitCount]
    exact hcut
  · rw [h]
    simp [strikeCount, commitCount]

/-- Witness for C4 amended: a declined contribution closes without success
with exactly one strike and no commit. -/
theorem c4_amended_witness :
    strikeCount (contribute phW envDecline 8).1 = 1 ∧
    (commitCount (contribute phW envDecline 8).1 = 0 ∨
      (commitCount (contribute phW envDecline 8).1 = 1 ∧
        (contributeInnerCut phW envDecline 8).2 = .timedOut)) :=
  c4_amended phW envDecline 8 (by decide) (by decide)

/-- Counterexample to C5 as stated: a candidate that validates against the
root and links to the parent, but whose validation outlives the deadline:
the attempt performs no commit, sends no confirmation, and records a strike
for the contributor — refuting all three parts of the claim. -/
theorem c5_counterexample :
    phW.validate 7 7 = some 7 ∧ phW.isLinkedTo 7 7 = true ∧
    envC5x.contributeRes = .ok (some 7) ∧ envC5x.fetchRoot = .ok 7 ∧
    envC5x.currentCrs = .ok (some 7) ∧
    contribute phW envC5x 4 = ([Effect.strike 4], .ok ()) :=
  ⟨by decide, by decide, rfl, rfl, rfl, by decide⟩

/-- C5 amended: for every attempt whose candidate validates and links,
provided the inner attempt completes within the deadline and the storage and
confirmation calls succeed, exactly one commit is performed, then exactly
one confirmation carrying the slot counter read after the commit, and no
strike is recorded. -/
theorem c5_amended (ph : Phase) (env : AttemptEnv) (c : Nat)
    (parent raw root ctr slot : Nat)
    (hcrs : env.currentCrs = .ok (some parent))
    (hcon : env.contributeRes = .ok (some raw))
    (hroot : env.fetchRoot = .ok root)
    (hval : ph.validate root raw = some ctr)
    (hlink : ph.isLinkedTo ctr parent = true)
    (hcommit : env.commitRes = .ok ()) (hslot : env.currentSlot = .ok slot)
    (hconf : env.confirmRes = .ok ())
    (htime : env.tCrs + env.tContribute + env.tRoot + env.tValidate +
      env.tCommit + env.tSlot + env.tConfirm ≤ ph.contributionTimeSecs) :
    contribute ph env c =
      ([Effect.commit c ctr, Effect.confirmEff slot], .ok ()) :=
  contribute_done ph env c _ _ (innerCut_success ph env c parent raw root ctr
    slot hcrs hcon hroot hval hlink hcommit hslot hconf htime)

/-- Witness for C5 amended: the concrete success environment commits once and
confirms once with the post-commit slot. -/
theorem c5_amended_witness :
    contribute phW envSuccess 6 =
      ([Effect.commit 6 5, Effect.confirmEff 9], .ok ()) :=
  c5_amended phW envSuccess 6 5 5 5 5 9 rfl rfl rfl (by decide) (by decide)
    rfl rfl rfl (by decide)

/-- C6: in a coordinator iteration with a non-empty ranking, an Arrival event
informs only the newly arrived address (the filter the coordinator passes is
the new address), while a Completion event (filter none) sends one
notification to every currently ranked address, in rank order, each carrying
the zero-based rank, the total ranked count, the head contributor's bid, and
the participant's own bid. -/
theorem c6_notifications :
    (∀ (q : ParticipantQueue) (ranked : List Nat) (cb f : Nat)
        (q2 : ParticipantQueue) (ns : List Notification),
      inform q ranked cb (some f) = some (q2, ns) → ∀ n ∈ ns, n.addr = f) ∧
    (∀ (q : ParticipantQueue) (cb : Nat), (qkeys q).Nodup →
      ∃ q2, inform q (score q) cb none =
        some (q2, rankedNotes q cb (score q).length 0 (score q))) ∧
    (∀ (cs : CoordState) (p : Participant) (b : Nat) (cs1 : CoordState)
        (dsp : Option (Nat × Participant)) (ns : List Notification),
      coordStep cs (.newParticipant p b) = .cont cs1 dsp ns →
      ∀ n ∈ ns, n.addr = p.addr) :=
  ⟨fun q ranked cb f q2 ns h => informGo_filter ranked.length cb f ranked q 0
      q2 ns h,
    fun q cb h => inform_complete_notes q cb h,
    fun cs p b cs1 dsp ns h => coordStep_arrival_notes cs p b cs1 dsp ns h⟩

/-- Witness for C6: on the two-entry queue, a completion-event inform
notifies both ranked addresses with their ranks and bids. -/
theorem c6_notifications_witness :
    (∃ q2, inform qW (score qW) 5 none =
      some (q2, rankedNotes qW 5 (score qW).length 0 (score qW))) ∧
    score qW = [1, 2] ∧
    rankedNotes qW 5 (score qW).length 0 (score qW) =
      [⟨1, 0, 2, 5, 5⟩, ⟨2, 1, 2, 5, 3⟩] :=
  ⟨c6_notifications.2.1 qW 5 (by decide), by decide, by decide⟩

/-- Whenever a try_notify send fails for an address during inform, that
entry is removed from the queue and inform itself still returns normally
(no panic, no error).  This is the inform-level half of the notify-failure
behavior; the coordinator-level continuation does not always hold, see
c7_notify_failure_panics_coordinator. -/
theorem inform_evicts_on_notify_failure (q : ParticipantQueue) (ranked : List Nat)
    (cb t : Nat) (filter : Option Nat) (p : Participant) (bid : Nat)
    (hq : (qkeys q).Nodup) (hnd : ranked.Nodup)
    (hmem : ∀ b ∈ ranked, b ∈ qkeys q) (ht : t ∈ ranked)
    (hget : qget q t = some (p, bid)) (hfail : p.notifyOk = false)
    (hpass : filter = none ∨ filter = some t) :
    ∃ q2 ns, inform q ranked cb filter = some (q2, ns) ∧ t ∉ qkeys q2 := by
  refine informGo_removes ranked.length cb filter t ranked q 0 hq hnd hmem ht
    ?_ hpass
  intro p1 b1 h1
  rw [hget] at h1
  injection h1 with h2
  injection h2 with h3 h4
  rw [← h3]
  exact hfail

/-- Concrete instance: in the queue whose second entry cannot be notified,
informing both ranked addresses succeeds and evicts address 2. -/
theorem inform_evicts_on_notify_failure_example :
    ∃ q2 ns, inform qWfail [1, 2] 9 none = some (q2, ns) ∧ 2 ∉ qkeys q2 :=
  inform_evicts_on_notify_failure qWfail [1, 2] 9 2 none ⟨2, true, false⟩ 3
    (by decide) (by decide) (by decide) (by decide) (by decide) rfl
    (Or.inl rfl)

/-- C7 fails on the code at a concrete input: the failed try_notify for the
head contributor is handled by inform exactly as claimed — the entry is
evicted and inform returns normally — but the coordinator iteration then
panics: with want_contribution set, remove(&contributor) at coordinator.rs
lines 272-275 finds nothing (inform already evicted the head) and its expect
fires, so the iteration does not continue without error.  Failing input:
empty queue, want_contribution true, first arrival address 1, live, bid 5,
whose try_notify send fails. -/
theorem c7_notify_failure_panics_coordinator :
    inform (qprune (qadd [] ⟨1, true, false⟩ 5)) [1] 5 (some 1) =
      some ([], [⟨1, 0, 1, 5, 5⟩]) ∧
    (1 : Nat) ∉ qkeys [] ∧
    score (qprune (qadd [] ⟨1, true, false⟩ 5)) = [1] ∧
    coordStep ⟨[], true⟩ (.newParticipant ⟨1, true, false⟩ 5) =
      CoordResult.panic :=
  ⟨rfl, by simp [qkeys], rfl, rfl⟩

/-- C8: a storage collaborator failure during an attempt — here a commit
failure — makes the handler's attempt return that error (no strike, no
confirmation), which terminates the Contribution Handler; the coordinator
observes the handler-terminated event and ends its run with that error, or
with the synthesized no-reason error when the handler carried none; and once
the coordinator has terminated (its state is gone), no schedule can produce a
further dispatch. -/
theorem c8_fatal_collaborator_failure :
    (∀ (ph : Phase) (env : AttemptEnv) (c : Nat) (parent raw root ctr : Nat)
        (e : Err),
      env.currentCrs = .ok (some parent) →
      env.contributeRes = .ok (some raw) → env.fetchRoot = .ok root →
      ph.validate root raw = some ctr → ph.isLinkedTo ctr parent = true →
      env.commitRes = .error e →
      env.tCrs + env.tContribute + env.tRoot + env.tValidate + env.tCommit ≤
        ph.contributionTimeSecs →
      contribute ph env c = ([], .error e)) ∧
    (∀ (cs : CoordState) (e : Err),
      coordStep cs (.handlerFinished (some e)) = .exit e) ∧
    (∀ cs : CoordState, coordStep cs (.handlerFinished none) =
      .exit "contribution handler finished with no reason") ∧
    (∀ (s : Sys) (cs : CoordState) (e : Option Err), s.coord = some cs →
      s.handler = .finished e →
      (sysStep s .deliverFinish).1.coord = none ∧
      (sysStep s .deliverFinish).2 =
        [SysLabel.coordExit
          (e.getD "contribution handler finished with no reason")]) ∧
    (∀ (sched : List SysChoice) (s : Sys), s.coord = none →
      ∀ w, SysLabel.dispatch w ∉ (runSys s sched).2) := by
  refine ⟨?_, fun cs e => rfl, fun cs => rfl, ?_, fun sched s h w =>
    runSys_dead sched s h w⟩
  · intro ph env c parent raw root ctr e h1 h2 h3 h4 h5 h6 h7
    exact contribute_done ph env c _ _
      (innerCut_commitFail ph env c parent raw root ctr e h1 h2 h3 h4 h5 h6 h7)
  · intro s cs e hc hh
    simp [sysStep, hc, hh, coordStep, applyCoord]

/-- Witness for C8: a concrete commit failure yields a handler-fatal error,
and the coordinator maps the carried error to its own exit. -/
theorem c8_fatal_collaborator_failure_witness :
    contribute phW envCommitFail 2 = ([], .error "storage commit failed") ∧
    coordStep ⟨[], true⟩ (.handlerFinished (some "storage commit failed")) =
      .exit "storage commit failed" :=
  ⟨c8_fatal_collaborator_failure.1 phW envCommitFail 2 5 5 5 5
      "storage commit failed" rfl rfl rfl (by decide) (by decide) rfl
      (by decide),
    c8_fatal_collaborator_failure.2.1 ⟨[], true⟩ "storage commit failed"⟩

/-- C9: score returns all current queue addresses, sorted by descending bid;
the order is a deterministic function of the queue state (ties are broken by
the map iteration order, fixed while the map is not mutated), so repeated
calls without intervening mutation return the same order. -/
theorem c9_score_sorted_deterministic (q : ParticipantQueue) :
    (score q).Perm (qkeys q) ∧
    (score q).Sorted (fun a b => qbidD q b ≤ qbidD q a) ∧
    (∀ q2, q2 = q → score q2 = score q) :=
  ⟨score_perm q, score_sorted q, fun q2 h => by rw [h]⟩

/-- Witness for C9: on the two-entry queue the score is the bid-descending
order, and a repeated call yields the same order. -/
theorem c9_score_sorted_deterministic_witness :
    score qW = score qW ∧ score qW = [1, 2] :=
  ⟨(c9_score_sorted_deterministic qW).2.2 qW rfl, by decide⟩

/-- C10: when inform runs on a ranked list produced by score on the current
queue state (whose keys are distinct, the HashMap invariant), the ranked
addresses are distinct and all present, so the internal lookup never fails —
the expect is unreachable and inform returns some result even though earlier
failed sends may have removed other entries. -/
theorem c10_inform_lookup_total (q : ParticipantQueue) (cb : Nat)
    (filter : Option Nat) (h : (qkeys q).Nodup) :
    (inform q (score q) cb filter).isSome = true := by
  obtain ⟨q2, ns, hrun⟩ := inform_score_some q cb filter h
  simp [hrun]

/-- Witness for C10: on the concrete queue, inform over its score returns
some. -/
theorem c10_inform_lookup_total_witness :
    (inform qW (score qW) 5 none).isSome = true :=
  c10_inform_lookup_total qW 5 none (by decide)
